import Mathlib

set_option maxHeartbeats 1000000
set_option maxRecDepth 100000

/-!
Verification of the genfile repository (exact-size placeholder file
generator, github.com/hailam/genfile) against its natural-language
specification.

Bytes are modelled as natural numbers (values below 256), buffers as
lists of naturals.  Go int64 values are modelled as `Int`; unsigned
casts take the value modulo 2^width.  Randomness (entity choices,
filler bytes) is modelled by explicit choice streams, and external
serializers (excelize, gopdf) by measurement oracles, so that every
real execution corresponds to an instantiation of the parameters.
-/

namespace GenFile

namespace Dwg

/-- The bit-level writer of `src/internal/adapters/dwg/generator.go`
(local type `bitWriter`): a byte buffer and a bit cursor into the last
byte.  The cursor is a `uint8` holding values 0-7 by construction in the
source; we carry that range in the type so that the `writeBits` loop
terminates. -/
structure BitWriter where
  buf : List Nat
  bitPos : Fin 8
deriving DecidableEq, Repr

/-- Go `bw.buf[len(bw.buf)-1] |= byte(part)`: or `part` into the last
byte of the buffer.  The source never reaches this with an empty buffer
(a fresh byte is appended first whenever the cursor is 0). -/
def orLastByte (l : List Nat) (part : Nat) : List Nat :=
  l.dropLast ++ [l.getLastD 0 ||| part]

/-- The loop body of `writeBits` from the source, driven by explicit
fuel: each Go iteration consumes at least one bit (`space ≥ 1` because
the cursor is below 8), so `bits` iterations always suffice and
`writeBits` below instantiates the fuel accordingly.  The masks
`(1 << bits) - 1` on `uint64` equal reduction modulo `2 ^ bits` for the
values the generator passes (all below `2 ^ 64`). -/
def writeBitsF : Nat → Nat → Nat → BitWriter → BitWriter
  | 0, _, _, s => s
  | fuel + 1, value, bits, s =>
    if bits = 0 then s
    else
      -- start a new byte in the buffer when at a byte boundary
      let buf := if s.bitPos.val = 0 then s.buf ++ [0] else s.buf
      if h : bits ≤ 8 - s.bitPos.val then
        -- all bits fit into the current byte, aligned to the MSB of the
        -- available space
        let part := (value % 2 ^ bits) * 2 ^ (8 - s.bitPos.val - bits)
        ⟨orLastByte buf part,
          if h2 : s.bitPos.val + bits = 8 then 0
          else ⟨s.bitPos.val + bits, by have := s.bitPos.isLt; omega⟩⟩
      else
        -- fill the remaining bits of the current byte with the low bits
        -- of the value and continue with the rest
        let part := value % 2 ^ (8 - s.bitPos.val)
        writeBitsF fuel (value / 2 ^ (8 - s.bitPos.val)) (bits - (8 - s.bitPos.val))
          ⟨orLastByte buf part, 0⟩

/-- `writeBits(value, bits)` of the source. -/
def writeBits (value bits : Nat) (s : BitWriter) : BitWriter :=
  writeBitsF bits value bits s

/-- `flushByteAlign` of the source: when the cursor is nonzero it
appends a fresh zero byte and resets the cursor. -/
def flushByteAlign (s : BitWriter) : BitWriter :=
  if s.bitPos.val = 0 then s else ⟨s.buf ++ [0], 0⟩

/-- The little-endian byte decomposition loop of `writeHandleRef`
(`for handleValue > 0 { bytes = append(bytes, byte(v&0xFF)); v >>= 8 }`),
driven by fuel; handles are `uint32`, so fuel 8 never runs out. -/
def leBytesF : Nat → Nat → List Nat
  | 0, _ => []
  | fuel + 1, v => if v = 0 then [] else v % 256 :: leBytesF fuel (v / 256)

/-- `writeHandleRef` of the source: a null handle is a single zero byte;
otherwise a length byte followed by the little-endian bytes of the
handle.  In both cases the cursor is reset without flushing. -/
def writeHandleRef (refHandle : Nat) (s : BitWriter) : BitWriter :=
  if refHandle = 0 then ⟨s.buf ++ [0], 0⟩
  else
    let bytes := leBytesF 8 refHandle
    let bytes := if bytes = [] then [0] else bytes
    ⟨s.buf ++ [bytes.length] ++ bytes, 0⟩

/-- `writeBitShort` of the source (BITSHORT).  The argument is a Go
`int`; `val & 0xFF` on a negative value is its Euclidean remainder
modulo 256 and `val >> 8` is the arithmetic shift, i.e. floor division
by 256. -/
def writeBitShort (val : Int) (s : BitWriter) : BitWriter :=
  if val = 0 then writeBits 2 2 s
  else if val = 256 then writeBits 3 2 s
  else if 0 ≤ val ∧ val < 256 then
    writeBits val.toNat 8 (writeBits 1 2 s)
  else
    writeBits ((val.fdiv 256).emod 256).toNat 8
      (writeBits (val.emod 256).toNat 8 (writeBits 0 2 s))

/-- Go `float64` values reaching `writeBitDouble`, abstracted: the
encoder branches only on equality with 0.0 and with 1.0 and otherwise
writes the raw IEEE-754 bit pattern, which we carry as an opaque 64-bit
value for the remaining floats. -/
inductive GoFloat where
  | zero
  | one
  | other (bits : Nat)
deriving DecidableEq, Repr

/-- `writeBitDouble` of the source (BITDOUBLE): special cases for 0.0
and 1.0, otherwise a 2-bit tag followed by the eight IEEE-754 bytes,
little-endian. -/
def writeBitDouble (val : GoFloat) (s : BitWriter) : BitWriter :=
  match val with
  | .zero => writeBits 2 2 s
  | .one => writeBits 3 2 s
  | .other bits =>
    (List.range 8).foldl (fun t i => writeBits (bits / 2 ^ (8 * i) % 256) 8 t)
      (writeBits 0 2 s)

/-! ### Bit-sequence denotation of the writer -/

/-- The eight bits of a byte, most significant first. -/
def byteBitsMSB (b : Nat) : List Bool :=
  (List.range 8).map fun i => b.testBit (7 - i)

/-- The sequence of bits written so far: every completed byte
contributes its eight bits most-significant-first; when the cursor is
nonzero the last byte is partial and contributes only its top `bitPos`
bits. -/
def bwBits (s : BitWriter) : List Bool :=
  if s.buf = [] then []
  else
    s.buf.dropLast.flatMap byteBitsMSB ++
      (byteBitsMSB (s.buf.getLastD 0)).take
        (if s.bitPos.val = 0 then 8 else s.bitPos.val)

/-- Invariant maintained by the source: when the cursor is nonzero the
last byte exists and its low `8 - bitPos` bits are still zero. -/
def BWInv (s : BitWriter) : Prop :=
  s.bitPos.val ≠ 0 → s.buf ≠ [] ∧ s.buf.getLastD 0 % 2 ^ (8 - s.bitPos.val) = 0

instance (s : BitWriter) : Decidable (BWInv s) := by
  unfold BWInv; infer_instance

/-- The low `n` bits of `v`, most significant first. -/
def msbBits (n v : Nat) : List Bool :=
  (List.range n).map fun i => v.testBit (n - 1 - i)

/-- The bit sequence `writeBits` actually appends when `space` bits of
the current byte are free: a field that fits is placed
most-significant-bit-first into the free bits; a field that spans the
byte boundary contributes its LOW `space` bits to the current byte and
its remaining high bits to later bytes (little-endian chunk order).
Fuel-driven like `writeBitsF`. -/
def chunkBitsF : Nat → Nat → Nat → Nat → List Bool
  | 0, _, _, _ => []
  | fuel + 1, v, n, space =>
    if n ≤ space then msbBits n v
    else msbBits space v ++ chunkBitsF fuel (v / 2 ^ space) (n - space) 8

/-- See `chunkBitsF`; `n` iterations always suffice. -/
def chunkBits (v n space : Nat) : List Bool :=
  chunkBitsF n v n space

/-! ### The DWG generator pipeline (DWGGenerator.Generate) -/

/-- 16-byte section start sentinel. -/
def startSentinel : List Nat :=
  [0x30, 0x84, 0xE0, 0xDC, 0x02, 0x21, 0xC7, 0x56,
   0xA0, 0x83, 0x97, 0x47, 0xB1, 0x92, 0xCC, 0xA0]

/-- 16-byte section end sentinel. -/
def endSentinel : List Nat :=
  [0x2B, 0x84, 0xDE, 0x31, 0xD7, 0x6C, 0x60, 0x40,
   0xAC, 0xDB, 0xBF, 0xF6, 0xED, 0xC3, 0x55, 0xFE]

/-- 108-byte magic XOR key for the header directory. -/
def xorKey : List Nat :=
  [0x29, 0x23, 0xBE, 0x84, 0xE1, 0x6C, 0xD6, 0xAE, 0x52, 0x90, 0x49, 0xF1,
   0xF1, 0xBB, 0xE9, 0xEB, 0xB3, 0xA6, 0xDB, 0x3C, 0x87, 0x0C, 0x3E, 0x99,
   0x24, 0x5E, 0x0D, 0x1C, 0x06, 0xB7, 0x47, 0xDE, 0xB3, 0x12, 0x4D, 0xC8,
   0x43, 0xBB, 0x8B, 0xA6, 0x1F, 0x03, 0x5A, 0x7D, 0x09, 0x38, 0x25, 0x1F,
   0x5D, 0xD4, 0xCB, 0xFC, 0x96, 0xF5, 0x45, 0x3B, 0x13, 0x0D, 0x89, 0x0A,
   0x1C, 0xDB, 0xAE, 0x32, 0x20, 0x9A, 0x50, 0xEE, 0x40, 0x78, 0x36, 0xFD,
   0x12, 0x49, 0x32, 0xF6, 0x9E, 0x7D, 0x49, 0xDC, 0xAD, 0x4F, 0x14, 0xF2,
   0x44, 0x40, 0x66, 0xD0, 0x6B, 0xC4, 0x30, 0xB7, 0x32, 0x3B, 0xA1, 0x22,
   0xF6, 0x22, 0x91, 0x9D, 0xE1, 0x8B, 0x1F, 0xDA, 0xB0, 0xCA, 0x99, 0x02]

/-- Version string "AC1032". -/
def versionBytes : List Nat := [0x41, 0x43, 0x31, 0x30, 0x33, 0x32]

/-- Summary info section: sentinel, zero padding to 128 bytes total,
end sentinel. -/
def summarySec : List Nat :=
  startSentinel ++ List.replicate (128 - 16 - 16) 0 ++ endSentinel

/-- Preview section, padded to 0x400 bytes. -/
def previewSec : List Nat :=
  startSentinel ++ List.replicate (0x400 - 16 - 16) 0 ++ endSentinel

/-- Classes section: just the two sentinels. -/
def classesSec : List Nat := startSentinel ++ endSentinel

/-- Header variables section: just the two sentinels. -/
def headerSec : List Nat := startSentinel ++ endSentinel

def summarySize : Nat := summarySec.length
def previewSize : Nat := previewSec.length
def classesSize : Nat := classesSec.length
def headerVarsSize : Nat := headerSec.length

/-- The recurring sum 128 + 108 + summarySize + previewSize +
headerVarsSize + classesSize from the source (file header, directory
and the four fixed sections). -/
def fixedLen : Nat :=
  128 + 108 + summarySize + previewSize + headerVarsSize + classesSize

/-- Pre-assigned handles for the essential table objects. -/
def blockCtrlHandle : Nat := 1
def modelSpaceBlockHdl : Nat := 2
def layerCtrlHandle : Nat := 3
def layer0Handle : Nat := 4
def ltypeCtrlHandle : Nat := 5
def contLtypeHandle : Nat := 6

/-- Fresh writer for one object record: two reserved length bytes. -/
def recStart : BitWriter := ⟨[0, 0], 0⟩

/-- Patch the length field: `objLen := len(buf) - 4` written
little-endian as uint16 into the first two bytes. -/
def patchLenField (buf : List Nat) : List Nat :=
  let objLen := (buf.length - 4) % 65536
  objLen % 256 :: objLen / 256 :: buf.drop 2

/-- BLOCK CONTROL object (type 0x30). -/
def blockCtrlRec : List Nat :=
  let s := recStart
  let s := writeBitShort 0x30 s
  let s := writeBitShort 1 s       -- number of block records owned = 1
  let s := flushByteAlign s
  let s := writeHandleRef 0 s      -- no owner
  patchLenField (s.buf ++ [0, 0])  -- CRC placeholder then length patch

/-- "*Model_Space" as bytes. -/
def modelSpaceName : List Nat :=
  [0x2A, 0x4D, 0x6F, 0x64, 0x65, 0x6C, 0x5F, 0x53, 0x70, 0x61, 0x63, 0x65]

/-- BLOCK RECORD (Model Space) object (type 0x31) with the given owned
object count (0 as a placeholder on first write, the true entity count
in the retroactive patch). -/
def modelSpaceRec (count : Int) : List Nat :=
  let s := recStart
  let s := writeBitShort 0x31 s
  let s := flushByteAlign s
  let s : BitWriter := ⟨s.buf ++ [modelSpaceName.length] ++ modelSpaceName, s.bitPos⟩
  let s := writeBitShort 0 s       -- flags
  let s := writeBitShort count s   -- owned object count
  let s := flushByteAlign s
  let s := writeHandleRef blockCtrlHandle s
  let s := writeHandleRef 0 s
  let s := writeHandleRef 0 s
  patchLenField (s.buf ++ [0, 0])

/-- LAYER CONTROL object (type 0x32). -/
def layerCtrlRec : List Nat :=
  let s := recStart
  let s := writeBitShort 0x32 s
  let s := writeBitShort 1 s       -- number of layers = 1
  let s := flushByteAlign s
  let s := writeHandleRef 0 s
  patchLenField (s.buf ++ [0, 0])

/-- LAYER "0" object (type 0x33). -/
def layer0Rec : List Nat :=
  let s := recStart
  let s := writeBitShort 0x33 s
  let s := flushByteAlign s
  let s : BitWriter := ⟨s.buf ++ [1, 0x30], s.bitPos⟩  -- name "0"
  let s := writeBitShort 0 s       -- flags
  let s := writeBitShort 7 s       -- color index
  let s := flushByteAlign s
  let s := writeHandleRef contLtypeHandle s
  let s := writeBitShort 0 s       -- plot flags
  let s := writeBitShort 0 s       -- lineweight
  let s := flushByteAlign s
  let s := writeHandleRef layerCtrlHandle s
  let s := writeHandleRef 0 s
  let s := writeHandleRef 0 s
  patchLenField (s.buf ++ [0, 0])

/-- LTYPE CONTROL object (type 0x38). -/
def ltypeCtrlRec : List Nat :=
  let s := recStart
  let s := writeBitShort 0x38 s
  let s := writeBitShort 1 s       -- number of linetypes = 1
  let s := flushByteAlign s
  let s := writeHandleRef 0 s
  patchLenField (s.buf ++ [0, 0])

/-- "Continuous" as bytes. -/
def contName : List Nat :=
  [0x43, 0x6F, 0x6E, 0x74, 0x69, 0x6E, 0x75, 0x6F, 0x75, 0x73]

/-- "Solid" as bytes. -/
def solidDesc : List Nat := [0x53, 0x6F, 0x6C, 0x69, 0x64]

/-- LINETYPE "Continuous" object (type 0x39). -/
def ltypeContRec : List Nat :=
  let s := recStart
  let s := writeBitShort 0x39 s
  let s := flushByteAlign s
  let s : BitWriter := ⟨s.buf ++ [contName.length] ++ contName, s.bitPos⟩
  let s := writeBitDouble .zero s  -- pattern length 0.0
  let s := writeBitShort 0 s       -- dash segments
  let s := flushByteAlign s
  let s : BitWriter := ⟨s.buf ++ [solidDesc.length] ++ solidDesc, s.bitPos⟩
  let s := flushByteAlign s
  let s := writeHandleRef ltypeCtrlHandle s
  let s := writeHandleRef 0 s
  let s := writeHandleRef 0 s
  patchLenField (s.buf ++ [0, 0])

/-- One random entity: the source draws a LINE or a CIRCLE with random
coordinates (z components, thickness and extrusion are the literal
constants 0.0 / 1.0).  The random draws are abstracted into a choice
stream consumed one entry per loop iteration. -/
inductive EntityChoice where
  | line (x1 y1 x2 y2 : GoFloat)
  | circle (cx cy radius : GoFloat)
deriving DecidableEq, Repr

/-- A LINE (0x13) or CIRCLE (0x12) entity record. -/
def entityRec (c : EntityChoice) : List Nat :=
  let s := recStart
  let s := match c with
    | .line _ _ _ _ => writeBitShort 0x13 s
    | .circle _ _ _ => writeBitShort 0x12 s
  let s := flushByteAlign s
  let s := writeHandleRef layer0Handle s   -- layer "0"
  let s := match c with
    | .line x1 y1 x2 y2 =>
      let s := writeBitDouble x1 s
      let s := writeBitDouble y1 s
      let s := writeBitDouble .zero s      -- z1 = 0
      let s := writeBitDouble x2 s
      let s := writeBitDouble y2 s
      let s := writeBitDouble .zero s      -- z2 = 0
      let s := writeBitDouble .zero s      -- thickness
      let s := writeBitDouble .zero s
      let s := writeBitDouble .zero s
      writeBitDouble .one s                -- extrusion
    | .circle cx cy r =>
      let s := writeBitDouble cx s
      let s := writeBitDouble cy s
      let s := writeBitDouble .zero s      -- cz = 0
      let s := writeBitDouble r s
      let s := writeBitDouble .zero s      -- thickness
      let s := writeBitDouble .zero s
      let s := writeBitDouble .zero s
      writeBitDouble .one s                -- extrusion
  let s := flushByteAlign s
  let s := writeHandleRef modelSpaceBlockHdl s
  let s := writeHandleRef 0 s
  let s := writeHandleRef 0 s
  patchLenField (s.buf ++ [0, 0])

/-- One entry of the handle index (`objEntry` in the source). -/
structure ObjEntry where
  handle : Nat
  offset : Nat
deriving DecidableEq, Repr

/-- Append an object record to the objects section, recording its
handle and the section-relative offset at the moment of appending. -/
def appendObj (st : List Nat × List ObjEntry) (h : Nat) (rec : List Nat) :
    List Nat × List ObjEntry :=
  (st.1 ++ rec, st.2 ++ [⟨h, st.1.length⟩])

/-- Objects section and handle index after writing the six table
objects (before the entity loop). -/
def dwgInit : List Nat × List ObjEntry :=
  let st := (startSentinel, ([] : List ObjEntry))
  let st := appendObj st blockCtrlHandle blockCtrlRec
  let st := appendObj st modelSpaceBlockHdl (modelSpaceRec 0)
  let st := appendObj st layerCtrlHandle layerCtrlRec
  let st := appendObj st layer0Handle layer0Rec
  let st := appendObj st ltypeCtrlHandle ltypeCtrlRec
  appendObj st contLtypeHandle ltypeContRec

/-- State of the greedy entity loop. -/
structure LoopState where
  objectsSec : List Nat
  handleIndex : List ObjEntry
  nextEntityHandle : Nat
  entityCount : Nat
deriving DecidableEq, Repr

/-- The greedy fill loop, fuel-driven (each iteration either stops or
appends a record of at least four bytes while the section stays below
the target, so `size.toNat + 1` units of fuel never run out). -/
def entityLoopF (cs : Nat → EntityChoice) (size : Int) :
    Nat → LoopState → LoopState
  | 0, st => st
  | fuel + 1, st =>
    -- estimate of the file length if we closed now
    let currentLen := fixedLen + st.objectsSec.length + 16 + 16 + 16
    if size ≤ (currentLen : Int) then st
    else
      let rec1 := entityRec (cs st.entityCount)
      let futureLen := st.objectsSec.length + rec1.length + 16 + 32
      if ((fixedLen + futureLen : Nat) : Int) > size then st
      else
        entityLoopF cs size fuel
          { objectsSec := st.objectsSec ++ rec1,
            handleIndex := st.handleIndex ++ [⟨st.nextEntityHandle, st.objectsSec.length⟩],
            nextEntityHandle := st.nextEntityHandle + 1,
            entityCount := st.entityCount + 1 }

/-- Go `copy(dst[pos:pos+len(src)], src)` for `pos + len(src)` within
bounds (the source would panic otherwise; the only use patches a record
strictly inside the objects section). -/
def listCopyAt (dst : List Nat) (pos : Nat) (src : List Nat) : List Nat :=
  dst.take pos ++ src ++ dst.drop (pos + src.length)

/-- The retroactive patch: find the Model-Space entry in the handle
index and overwrite the bytes at its recorded offset with the record
re-encoded under the true entity count. -/
def patchModelSpace (objectsSec : List Nat) (handleIndex : List ObjEntry)
    (entityCount : Nat) : List Nat :=
  match handleIndex.find? (fun e => e.handle = modelSpaceBlockHdl) with
  | none => objectsSec
  | some entry => listCopyAt objectsSec entry.offset (modelSpaceRec entityCount)

/-- The do-while loop decomposing a handle little-endian for the
handles section (emits one byte even for handle 0). -/
def hBytesLoopF : Nat → Nat → List Nat
  | 0, _ => []
  | fuel + 1, v => v % 256 :: (if v / 256 = 0 then [] else hBytesLoopF fuel (v / 256))

/-- `binary.LittleEndian.PutUint32`: four little-endian bytes. -/
def le32 (n : Nat) : List Nat :=
  [n % 256, n / 256 % 256, n / 65536 % 256, n / 16777216 % 256]

/-- One serialized handle-map entry: length byte, handle bytes
LSB-first, then the 4-byte little-endian offset into the objects
section. -/
def handleEntryBytes (e : ObjEntry) : List Nat :=
  let hB := hBytesLoopF 8 e.handle
  [hB.length] ++ hB ++ le32 e.offset

/-- `sort.Slice` on the handle index by ascending handle (all handles
are distinct, so any correct sort yields this result). -/
def sortedIndex (hi : List ObjEntry) : List ObjEntry :=
  hi.insertionSort (fun a b => a.handle ≤ b.handle)

/-- The HANDLES (object map) section. -/
def handlesSecOf (hi : List ObjEntry) : List Nat :=
  startSentinel ++ (sortedIndex hi).flatMap handleEntryBytes ++ endSentinel

/-- The FREE SPACE section: pad with zero bytes up to the target when
the file is still short of it. -/
def freeSecOf (size : Int) (objectsSize handlesSize : Nat) : List Nat :=
  let currentLength := fixedLen + objectsSize + handlesSize + 16 + 16
  let pad := if (currentLength : Int) < size then (size - (currentLength : Int)).toNat else 0
  startSentinel ++ List.replicate pad 0 ++ endSentinel

/-- One 14-byte directory entry: hash, offset, size, encryption flag,
encoding flag. -/
def dirEntry (hash offset size : Nat) (encryption encoding : Nat) : List Nat :=
  le32 hash ++ le32 offset ++ le32 size ++ [encryption, encoding]

/-- The 108-byte section directory, XOR-encrypted with the magic key. -/
def headerDir (objectsSize handlesSize freeSize : Nat) : List Nat :=
  let base := 128 + 108
  let plain :=
    dirEntry 0x32B803D9 (base + previewSize + summarySize) headerVarsSize 0 1 ++
    dirEntry 0x3F54045F (base + previewSize + summarySize + headerVarsSize)
      classesSize 0 1 ++
    dirEntry 0x674C05A9 (base + previewSize + summarySize + headerVarsSize +
      classesSize) objectsSize 0 1 ++
    dirEntry 0x3F6E0450 (base + previewSize + summarySize + headerVarsSize +
      classesSize + objectsSize) handlesSize 0 1 ++
    dirEntry 0x77E2061F (base + previewSize + summarySize + headerVarsSize +
      classesSize + objectsSize + handlesSize) freeSize 0 1 ++
    dirEntry 0x40AA0473 base previewSize 0 1 ++
    dirEntry 0x717A060F (base + previewSize) summarySize 0 1 ++
    List.replicate 10 0
  List.zipWith (fun a b => a ^^^ b) plain xorKey

/-- The 128-byte file header (write sequence of the source, gaps
zero). -/
def fileHeader : List Nat :=
  versionBytes ++                     -- 0x00-0x05 "AC1032"
  List.replicate 6 0 ++               -- 0x06-0x0B
  [0x01] ++                           -- 0x0C maintenance version
  le32 (128 + 108) ++                 -- 0x0D-0x10 preview pointer
  [0x1C] ++                           -- 0x11 application version
  [0x00] ++                           -- 0x12 application maintenance
  [0xE4, 0x04] ++                     -- 0x13-0x14 codepage
  List.replicate 11 0 ++              -- 0x15-0x1F reserved / security / unknown
  le32 (128 + 108 + previewSize) ++   -- 0x20-0x23 SummaryInfo pointer
  List.replicate 4 0 ++               -- 0x24-0x27 VBA pointer (none)
  le32 0x80 ++                        -- 0x28-0x2B constant
  List.replicate 84 0                 -- 0x2C-0x7F padding

/-- Result of one DWG generation: the variable sections plus the loop
outputs needed by the invariants. -/
structure DwgRun where
  objectsSec : List Nat
  handleIndex : List ObjEntry
  entityCount : Nat
  handlesSec : List Nat
  freeSec : List Nat
deriving Repr

/-- The whole `DWGGenerator.Generate` pipeline up to the write calls:
table objects, greedy entity loop, retroactive Model-Space patch,
handles section, free-space section. -/
def dwgRun (cs : Nat → EntityChoice) (size : Int) : DwgRun :=
  let st0 : LoopState :=
    { objectsSec := dwgInit.1, handleIndex := dwgInit.2,
      nextEntityHandle := 0x100, entityCount := 0 }
  let st := entityLoopF cs size (size.toNat + 1) st0
  let objs := patchModelSpace st.objectsSec st.handleIndex st.entityCount
  let objectsSec := objs ++ endSentinel
  let handlesSec := handlesSecOf st.handleIndex
  let freeSec := freeSecOf size objectsSec.length handlesSec.length
  { objectsSec := objectsSec, handleIndex := st.handleIndex,
    entityCount := st.entityCount, handlesSec := handlesSec, freeSec := freeSec }

/-- The bytes written to the output file, in the order the source
writes them (header, encrypted directory, preview, summary, header
variables, classes, objects, handles, free space). -/
def dwgFile (cs : Nat → EntityChoice) (size : Int) : List Nat :=
  let r := dwgRun cs size
  fileHeader ++ headerDir r.objectsSec.length r.handlesSec.length r.freeSec.length ++
    previewSec ++ summarySec ++ headerSec ++ classesSec ++
    r.objectsSec ++ r.handlesSec ++ r.freeSec

/-- `Generate` returns an error only for I/O failures (modelled as
absent); there is no size validation, so every call succeeds. -/
def dwgGenerate (cs : Nat → EntityChoice) (size : Int) : Except String (List Nat) :=
  .ok (dwgFile cs size)

/-- The file length before free-space padding is decided: all sections
plus the 32 bytes of free-space sentinels (`currentLength` at the
free-space step of the source). -/
def dwgPrePadLen (cs : Nat → EntityChoice) (size : Int) : Nat :=
  let r := dwgRun cs size
  fixedLen + r.objectsSec.length + r.handlesSec.length + 16 + 16

/-- The all-special-coordinate circle stream (center (0,0,0), radius 1;
reachable since the random draws can produce these values): every
bit-double in the record takes the 2-bit special form. -/
def csCircle : Nat → EntityChoice := fun _ => .circle .zero .zero .one

/-! ### Structure of the handle index -/

/-- Invariant of the greedy loop: entity handles are assigned
monotonically from 0x100, one handle-index entry exists per appended
object (the six table objects plus one per entity), and the objects
section only grows. -/
def LoopInv (st : LoopState) : Prop :=
  st.nextEntityHandle = 256 + st.entityCount
  ∧ (∃ es : List ObjEntry, st.handleIndex = dwgInit.2 ++ es
      ∧ es.map ObjEntry.handle = (List.range st.entityCount).map (fun i => 256 + i))
  ∧ 119 ≤ st.objectsSec.length

end Dwg


namespace Wav

/-- `binary.LittleEndian.PutUint16`. -/
def le16 (n : Nat) : List Nat := [n % 256, n / 256 % 256]

/-- The error returned for targets below the 44-byte header
("WAV size must be at least 44 bytes for header"), raised before the
output file is created. -/
def wavMinErr : String := "WAV size must be at least 44 bytes for header"

/-- The 44-byte PCM 8-bit mono header written by WavGenerator.Generate
(RIFF chunk, fmt chunk, data chunk header); the two size fields are
uint32 casts of size-8 and size-44. -/
def wavHeader (size : Int) : List Nat :=
  [0x52, 0x49, 0x46, 0x46] ++                        -- "RIFF"
  Dwg.le32 ((size - 8).emod (2 ^ 32)).toNat ++       -- ChunkSize
  [0x57, 0x41, 0x56, 0x45] ++                        -- "WAVE"
  [0x66, 0x6D, 0x74, 0x20] ++                        -- "fmt "
  Dwg.le32 16 ++                                     -- Subchunk1 size (PCM)
  le16 1 ++                                          -- audio format PCM
  le16 1 ++                                          -- mono
  Dwg.le32 44100 ++                                  -- sample rate
  Dwg.le32 44100 ++                                  -- byte rate
  le16 1 ++                                          -- block align
  le16 8 ++                                          -- bits per sample
  [0x64, 0x61, 0x74, 0x61] ++                        -- "data"
  Dwg.le32 ((size - 44).emod (2 ^ 32)).toNat         -- Subchunk2 size

/-- `WavGenerator.Generate`: sizes below 44 fail before the file is
created; otherwise the header plus size-44 random sample bytes are
written (utils.WriteRandomBytes emits exactly n bytes below 256, here
drawn from the stream `rnd`). -/
def wavGenerate (rnd : Nat → Nat) (size : Int) : Except String (List Nat) :=
  if size < 44 then .error wavMinErr
  else .ok (wavHeader size ++ (List.range (size - 44).toNat).map (fun i => rnd i % 256))

end Wav

namespace Utils

/-! ### ParseSize (src/internal/utils/utils.go) and
FileService.CreateFile.  Go strings are modelled as lists of
characters. -/

/-- ASCII white space as trimmed by strings.TrimSpace (the non-ASCII
Unicode spaces never occur in the inputs considered here). -/
def goIsSpace (c : Char) : Bool :=
  c = ' ' || c = '\t' || c = '\n' || c = '\x0b' || c = '\x0c' || c = '\r'

/-- strings.ToUpper on ASCII letters. -/
def goToUpper (c : Char) : Char :=
  if 'a' ≤ c ∧ c ≤ 'z' then Char.ofNat (c.toNat - 32) else c

/-- strings.TrimSpace: drop white space from both ends. -/
def trimSpace (s : List Char) : List Char :=
  ((s.dropWhile goIsSpace).reverse.dropWhile goIsSpace).reverse

/-- The digit test of the scanning loop (`r < '0' || r > '9'`
negated). -/
def isDigitCh (c : Char) : Bool := '0' ≤ c && c ≤ '9'

/-- The scanning loop of ParseSize: on the first non-digit rune at
index i, numPart is the prefix and suffix the trimmed remainder; if the
loop never breaks both stay empty. -/
def scanNum (s : List Char) : List Char × List Char :=
  match s.findIdx? (fun c => !(isDigitCh c)) with
  | none => ([], [])
  | some i => (s.take i, trimSpace (s.drop i))

/-- The errors of ParseSize. -/
inductive SizeErr where
  | empty
  | invalidNumber (msg : String)
  | unknownSuffix (suffix : List Char)
deriving DecidableEq, Repr

/-- Decimal value of a digit string (most significant first). -/
def digitsVal (ds : List Char) : Int :=
  ds.foldl (fun a c => a * 10 + ((c.toNat - 48 : Nat) : Int)) 0

/-- fmt.Sscanf(numPart, "%d", &baseVal) with an int64 operand: skip
leading spaces, optional sign, at least one decimal digit, trailing
input ignored; values outside the int64 range are a parse error
(strconv.ParseInt range failure). -/
def sscanfInt (s : List Char) : Except String Int :=
  let s1 := s.dropWhile goIsSpace
  let signAndRest : Bool × List Char :=
    match s1 with
    | '-' :: rest => (true, rest)
    | '+' :: rest => (false, rest)
    | _ => (false, s1)
  let digits := signAndRest.2.takeWhile isDigitCh
  if digits = [] then .error "expected integer"
  else
    let v := if signAndRest.1 then -(digitsVal digits) else digitsVal digits
    if v < -(2 ^ 63) ∨ 2 ^ 63 - 1 < v then .error "value out of range"
    else .ok v

/-- The suffix multiplier table (the "B" key is unreachable: the
equality check before the lookup already returned). -/
def suffixMult (suf : List Char) : Option Int :=
  if suf = ['B'] then some 1
  else if suf = ['K'] then some 1024
  else if suf = ['K', 'B'] then some 1024
  else if suf = ['M'] then some (1024 * 1024)
  else if suf = ['M', 'B'] then some (1024 * 1024)
  else if suf = ['G'] then some (1024 * 1024 * 1024)
  else if suf = ['G', 'B'] then some (1024 * 1024 * 1024)
  else none

/-- utils.ParseSize. -/
def ParseSize (s : List Char) : Except SizeErr Int :=
  if s = [] then .error .empty
  else
    let s1 := (trimSpace s).map goToUpper
    let np := scanNum s1
    let parts := if np.1 = [] then (s1, ([] : List Char)) else np
    match sscanfInt parts.1 with
    | .error e => .error (.invalidNumber e)
    | .ok baseVal =>
      if parts.2 = [] ∨ parts.2 = ['B'] then .ok baseVal
      else
        match suffixMult parts.2 with
        | none => .error (.unknownSuffix parts.2)
        | some mult => .ok (baseVal * mult)

/-- ports.FileType constants. -/
inductive FileType where
  | txt | png | jpeg | mp4 | m4v | wav | dwg | dxf | zip | xlsx
  | docx | pdf | csv | json | html | md | log | xml | gif
deriving DecidableEq, Repr

/-- mapExtensionToFileType of the application service (the extension is
already lower-cased and stripped of its dot by the caller). -/
def mapExtensionToFileType (ext : List Char) : Except String FileType :=
  if ext = ['t', 'x', 't'] ∨ ext = ['t', 'e', 'x', 't'] then .ok .txt
  else if ext = ['p', 'n', 'g'] then .ok .png
  else if ext = ['j', 'p', 'g'] ∨ ext = ['j', 'p', 'e', 'g'] then .ok .jpeg
  else if ext = ['m', 'p', '4'] then .ok .mp4
  else if ext = ['m', '4', 'v'] then .ok .m4v
  else if ext = ['w', 'a', 'v'] then .ok .wav
  else if ext = ['d', 'w', 'g'] then .ok .dwg
  else if ext = ['d', 'x', 'f'] then .ok .dxf
  else if ext = ['z', 'i', 'p'] then .ok .zip
  else if ext = ['x', 'l', 's', 'x'] then .ok .xlsx
  else if ext = ['d', 'o', 'c', 'x'] then .ok .docx
  else if ext = ['p', 'd', 'f'] then .ok .pdf
  else if ext = ['c', 's', 'v'] then .ok .csv
  else if ext = ['j', 's', 'o', 'n'] then .ok .json
  else if ext = ['h', 't', 'm', 'l'] then .ok .html
  else if ext = ['m', 'd'] then .ok .md
  else if ext = ['l', 'o', 'g'] then .ok .log
  else if ext = ['x', 'm', 'l'] then .ok .xml
  else if ext = ['g', 'i', 'f'] then .ok .gif
  else .error "unsupported file extension"

/-- FileService.CreateFile: parse the size spec, map the output path's
extension to a file type, look the generator up and invoke it with the
parsed byte count.  The factory is a parameter (the registry is wired
at composition time); path handling (filepath.Ext, ToLower) is done by
the caller here, which passes the extension directly. -/
def CreateFile (factory : FileType → Option (Int → Except String Unit))
    (ext : List Char) (sizeSpec : List Char) : Except String Unit :=
  match ParseSize sizeSpec with
  | .error _ => .error "invalid size"
  | .ok sizeBytes =>
    match mapExtensionToFileType ext with
    | .error e => .error e
    | .ok ft =>
      match factory ft with
      | none => .error "no generator for type"
      | some gen => gen sizeBytes

/-- The ten decimal digit characters. -/
def decDigits : List Char := ['0', '1', '2', '3', '4', '5', '6', '7', '8', '9']

end Utils


namespace Xlsx

/-! ### XlsxGenerator.Generate (src/internal/adapters/xlsx/generator.go)

The excelize serializer is external; it is modelled by a measurement
oracle `measure : Nat → Int` giving the in-memory serialized byte size
of the workbook with that many extra cells (one call per candidate
count, exactly as the source performs), together with the measured
`minimal` (one-cell skeleton) and `avgSize` (ten-cell probe) sizes and
the zip pad-entry overhead `padOH`. -/

/-- Result: the accepted extra-cell count and the serialized content
size that is then written and padded to the target. -/
structure XlsxOut where
  count : Nat
  contentSize : Int
deriving DecidableEq, Repr

/-- The downward search loop `for cnt := estCount; cnt >= 1; cnt--`:
serialize with cnt extra cells, accept the first (largest) count whose
size plus padding overhead fits the target. -/
def xlsxSearch (measure : Nat → Int) (padOH target : Int) : Nat → Option (Nat × Int)
  | 0 => none
  | c + 1 =>
    let sz := measure (c + 1)
    if sz + padOH ≤ target then some (c + 1, sz)
    else xlsxSearch measure padOH target c

/-- The initial linear estimate `estCount` (all divisions are Go int64
divisions, i.e. truncated): avgCell = (avgSize - minimal)/10 floored at
1, maxUsable = target - padOH - minimal floored at 0, estCount =
maxUsable/avgCell floored at 1. -/
def xlsxEstCount (minimal avgSize padOH target : Int) : Nat :=
  (max ((max (target - padOH - minimal) 0).tdiv
    (max ((avgSize - minimal).tdiv 10) 1)) 1).toNat

/-- XlsxGenerator.Generate up to the disk write: infeasible targets
fail; a target exactly equal to minimal+padOH short-circuits to the
minimal file; otherwise the downward search runs and falls back to the
minimal (zero-extra-cells) file when no count of at least 1 fits. -/
def xlsxGenerate (measure : Nat → Int) (minimal avgSize padOH target : Int) :
    Except String XlsxOut :=
  if minimal + padOH > target then .error "target size too small for xlsx"
  else if target = minimal + padOH then .ok ⟨0, minimal⟩
  else
    match xlsxSearch measure padOH target (xlsxEstCount minimal avgSize padOH target) with
    | some r => .ok ⟨r.1, r.2⟩
    | none => .ok ⟨0, minimal⟩

end Xlsx

namespace Pdf

/-! ### PdfGenerator.Generate (src/internal/adapters/pdf/generator.go)

gopdf serialization is external; `trace i` gives the (actualSize,
baseSize) pair measured by generateAndGetSize in iteration i.  The
dynamic bytes-per-char bookkeeping is float64 arithmetic whose value
feeds only the damped standard adjustment
int64(float64(diff)/dynamicBytesPerChar*dampingFactor); that quantity
is abstracted as the oracle `stdAdj i`.  The direct adjustment branch
(taken whenever |diff| < 100) is exact integer arithmetic and is
modelled faithfully. -/

def maxIterations : Nat := 20
def tolerance : Int := 5
def directAdjustThreshold : Int := 100

/-- Result of Generate: the character count used for the final write
and whether the iteration cap was reached without converging (the
"Reached max iterations" warning path). -/
structure PdfOut where
  finalChars : Int
  hitCap : Bool
deriving DecidableEq, Repr

/-- The size-refinement loop; `k` counts the remaining iterations
(k = maxIterations - i) so the recursion is structural.  Each branch
mirrors one break of the source: convergence within tolerance,
oscillation around the target, minimal size change, and a forced step
that cannot move.  Reaching the bottom of iteration i =
maxIterations - 1 sets the cap flag. -/
def pdfLoopGo (trace : Nat → Int × Int) (stdAdj : Nat → Int) (target : Int) :
    Nat → Nat → Int → Int → Int → Int × Bool
  | 0, _, _, _, finalChars => (finalChars, false)
  | k + 1, i, currentChars, lastActualSize, _ =>
    let actual := (trace i).1
    let diff := target - actual
    -- finalCharsFromIteration := currentChars
    if diff = 0 ∨ |diff| ≤ tolerance then (currentChars, false)
    else if lastActualSize ≠ -1 ∧
        (((diff > 0 ∧ target - lastActualSize < 0) ∨
          (diff < 0 ∧ target - lastActualSize > 0)) ∧ |diff| < tolerance * 5) then
      (currentChars, false)
    else if lastActualSize ≠ -1 ∧
        (|actual - lastActualSize| < 10 ∧ |diff| > tolerance) then
      (currentChars, false)
    else
      let adjustment :=
        if |diff| < directAdjustThreshold then
          min (directAdjustThreshold * 2) (max (-(directAdjustThreshold * 2)) diff)
        else if diff > 0 then max 1 (stdAdj i) else min (-1) (stdAdj i)
      let newChars0 := currentChars + adjustment
      let newChars1 := if newChars0 < 0 then 0 else newChars0
      if newChars1 = currentChars then
        let newChars2 :=
          if diff > 0 then newChars1 + 1
          else if diff < 0 ∧ newChars1 > 0 then newChars1 - 1 else newChars1
        if newChars2 = currentChars then (currentChars, false)
        else if i = maxIterations - 1 then (newChars2, true)
        else pdfLoopGo trace stdAdj target k (i + 1) newChars2 actual newChars2
      else if i = maxIterations - 1 then (newChars1, true)
      else pdfLoopGo trace stdAdj target k (i + 1) newChars1 actual newChars1

/-- PdfGenerator.Generate: reject targets below the measured minimal
PDF size, short-circuit an exact minimal target, otherwise run the
refinement loop and write the final PDF with the resulting character
count — returning nil (success) in every case, including when the
iteration cap was hit. -/
def pdfGenerate (trace : Nat → Int × Int) (stdAdj : Nat → Int)
    (initialBase target : Int) : Except String PdfOut :=
  if target < initialBase then .error "target size is less than minimum possible size"
  else if target = initialBase then .ok ⟨0, false⟩
  else
    let c0 := target - initialBase
    let currentChars := if c0 < 1 then 1 else c0
    let r := pdfLoopGo trace stdAdj target maxIterations 0 currentChars (-1) currentChars
    .ok ⟨r.1, r.2⟩

end Pdf

/-! ## Proofs -/

namespace Dwg

lemma testBit_eq_false_of_mod {x k t : Nat} (h : x % 2 ^ k = 0) (ht : t < k) :
    x.testBit t = false := by
  have h1 := Nat.testBit_mod_two_pow x k t
  rw [h, Nat.zero_testBit] at h1
  simpa [ht] using h1.symm

lemma mod_two_pow_eq_zero {x k : Nat} (h : ∀ t, t < k → x.testBit t = false) :
    x % 2 ^ k = 0 := by
  apply Nat.eq_of_testBit_eq
  intro i
  rw [Nat.testBit_mod_two_pow, Nat.zero_testBit]
  by_cases hi : i < k
  · simp [hi, h i hi]
  · simp [hi]

lemma byteBitsMSB_length (b : Nat) : (byteBitsMSB b).length = 8 := by
  simp [byteBitsMSB]

lemma bwBits_concat (bs : List Nat) (L : Nat) (p : Fin 8) :
    bwBits ⟨bs ++ [L], p⟩ =
      bs.flatMap byteBitsMSB ++
        (byteBitsMSB L).take (if p.val = 0 then 8 else p.val) := by
  unfold bwBits
  simp [List.dropLast_concat, List.getLastD_concat]

lemma bwBits_pos_zero {s : BitWriter} (h : s.bitPos.val = 0) :
    bwBits s = s.buf.flatMap byteBitsMSB := by
  by_cases hb : s.buf = []
  · simp [bwBits, hb]
  · obtain ⟨bs, L, hbl⟩ : ∃ bs L, s.buf = bs ++ [L] :=
      ⟨s.buf.dropLast, s.buf.getLast hb, (List.dropLast_append_getLast hb).symm⟩
    have : s = ⟨bs ++ [L], s.bitPos⟩ := by cases s; simp_all
    rw [this, bwBits_concat, h]
    simp [List.take_of_length_le (le_of_eq (byteBitsMSB_length L))]

lemma chunkBits_zero (v space : Nat) : chunkBits v 0 space = [] := rfl

lemma chunkBits_fit {v n space : Nat} (h : n ≤ space) :
    chunkBits v n space = msbBits n v := by
  cases n with
  | zero => simp [chunkBits_zero, msbBits]
  | succ m => simp [chunkBits, chunkBitsF, h]

lemma chunkBitsF_fuel_ge :
    ∀ (f f' v n space : Nat), n ≤ f → n ≤ f' → 1 ≤ space →
      chunkBitsF f v n space = chunkBitsF f' v n space := by
  intro f
  induction f with
  | zero =>
    intro f' v n space hn _ _
    have hn0 : n = 0 := Nat.le_zero.mp hn
    subst hn0
    cases f' with
    | zero => rfl
    | succ f' => simp [chunkBitsF, msbBits]
  | succ f ih =>
    intro f' v n space hn hn' hs
    cases f' with
    | zero =>
      have hn0 : n = 0 := Nat.le_zero.mp hn'
      subst hn0
      simp [chunkBitsF, msbBits]
    | succ f' =>
      simp only [chunkBitsF]
      by_cases h : n ≤ space
      · simp [h]
      · simp only [h, if_false]
        rw [ih f' (v / 2 ^ space) (n - space) 8 (by omega) (by omega) (by omega)]

lemma chunkBits_spill {v n space : Nat} (h : ¬ n ≤ space) (hs : 1 ≤ space) :
    chunkBits v n space =
      msbBits space v ++ chunkBits (v / 2 ^ space) (n - space) 8 := by
  obtain ⟨m, rfl⟩ : ∃ m, n = m + 1 := ⟨n - 1, by omega⟩
  show chunkBitsF (m + 1) v (m + 1) space = _
  simp only [chunkBitsF, h, if_false]
  rw [chunkBitsF_fuel_ge m (m + 1 - space) (v / 2 ^ space) (m + 1 - space) 8
    (by omega) (by omega) (by omega)]
  rfl

/-- Effect of oring one field of `m` bits into the current byte: the bit
sequence grows by exactly the top `m` free-bit positions of `part`, and
the invariant is preserved.  This covers both branches of the
`writeBits` loop body. -/
lemma bwBits_orLast_step (s : BitWriter) (hInv : BWInv s) (part m : Nat)
    (hm1 : 1 ≤ m) (hm : m ≤ 8 - s.bitPos.val)
    (hpart : part < 2 ^ (8 - s.bitPos.val))
    (hlow : part % 2 ^ (8 - s.bitPos.val - m) = 0)
    (q : Fin 8) (hq : q.val = (s.bitPos.val + m) % 8) :
    bwBits ⟨orLastByte (if s.bitPos.val = 0 then s.buf ++ [0] else s.buf) part, q⟩
        = bwBits s ++
          (List.range m).map (fun i => part.testBit (8 - s.bitPos.val - 1 - i))
      ∧ BWInv ⟨orLastByte (if s.bitPos.val = 0 then s.buf ++ [0] else s.buf) part, q⟩ := by
  have hp8 : s.bitPos.val < 8 := s.bitPos.isLt
  set p := s.bitPos.val with hpdef
  have hpm8 : p + m ≤ 8 := by omega
  -- the take count at the new cursor always equals p + m on an 8-bit byte
  have htake_eq : ∀ X : Nat, (byteBitsMSB X).take (if q.val = 0 then 8 else q.val) =
      (byteBitsMSB X).take (p + m) := by
    intro X
    by_cases hpm : p + m = 8
    · rw [hq, hpm]
      simp
    · rw [hq, Nat.mod_eq_of_lt (by omega)]
      have : p + m ≠ 0 := by omega
      simp [this]
  have hqval : q.val ≠ 0 → q.val = p + m := by
    intro hq0
    rcases Nat.lt_or_ge (p + m) 8 with hlt | hge
    · rw [hq]; exact Nat.mod_eq_of_lt hlt
    · have h8 : p + m = 8 := by omega
      rw [hq, h8] at hq0; simp at hq0
  by_cases hp : p = 0
  · -- at a byte boundary: a fresh byte is appended and or-ed with part
    rw [if_pos hp]
    have horl : orLastByte (s.buf ++ [0]) part = s.buf ++ [part] := by
      simp [orLastByte, List.dropLast_concat, List.getLastD_concat]
    rw [horl]
    have hbits : (byteBitsMSB part).take (p + m) =
        (List.range m).map (fun i => part.testBit (8 - p - 1 - i)) := by
      unfold byteBitsMSB
      rw [← List.map_take, List.take_range]
      have hmin : min (p + m) 8 = m := by omega
      rw [hmin]
      apply List.map_congr_left
      intro i _
      have : 7 - i = 8 - p - 1 - i := by omega
      rw [this]
    constructor
    · rw [bwBits_concat, bwBits_pos_zero hp, htake_eq, hbits]
    · intro hq0
      refine ⟨by simp, ?_⟩
      rw [List.getLastD_concat, hqval hq0]
      have : 8 - (p + m) = 8 - p - m := by omega
      rw [this]
      have hmod : part % 2 ^ (8 - p - m) = 0 := hlow
      exact hmod
  · -- mid-byte: part is or-ed into the existing last byte
    rw [if_neg hp]
    obtain ⟨hbne, hL⟩ := hInv hp
    obtain ⟨bs, L, hbl⟩ : ∃ bs L, s.buf = bs ++ [L] :=
      ⟨s.buf.dropLast, s.buf.getLast hbne, (List.dropLast_append_getLast hbne).symm⟩
    have hLD : s.buf.getLastD 0 = L := by rw [hbl, List.getLastD_concat]
    rw [hLD] at hL
    have horl : orLastByte s.buf part = bs ++ [L ||| part] := by
      rw [hbl]
      simp [orLastByte, List.dropLast_concat, List.getLastD_concat]
    rw [horl]
    have hs' : s = ⟨bs ++ [L], s.bitPos⟩ := by cases s; simp_all
    have hbw : bwBits s = bs.flatMap byteBitsMSB ++ (byteBitsMSB L).take p := by
      rw [hs', bwBits_concat]
      have : (if (s.bitPos : Nat) = 0 then 8 else (s.bitPos : Nat)) = p := by
        simp [hpdef, hp]
      rw [this]
    have hkey : (byteBitsMSB (L ||| part)).take (p + m) =
        (byteBitsMSB L).take p ++
          (List.range m).map (fun i => part.testBit (8 - p - 1 - i)) := by
      apply List.ext_getElem
      · simp [byteBitsMSB]; omega
      · intro j hj1 hj2
        have hjpm : j < p + m := by
          simpa [byteBitsMSB, hpm8] using hj1
        have hBor : ((byteBitsMSB (L ||| part)).take (p + m))[j] =
            (L.testBit (7 - j) || part.testBit (7 - j)) := by
          rw [List.getElem_take]
          simp [byteBitsMSB, Nat.testBit_or]
        rw [hBor]
        by_cases hjp : j < p
        · rw [List.getElem_append_left (by simp [byteBitsMSB]; omega)]
          have hpartf : part.testBit (7 - j) = false := by
            apply Nat.testBit_lt_two_pow
            calc part < 2 ^ (8 - p) := hpart
            _ ≤ 2 ^ (7 - j) := Nat.pow_le_pow_right (by omega) (by omega)
          rw [hpartf]
          simp [byteBitsMSB]
        · have hLf : L.testBit (7 - j) = false := by
            apply testBit_eq_false_of_mod hL
            omega
          rw [hLf]
          rw [List.getElem_append_right (by simp [byteBitsMSB]; omega)]
          have hlen : ((byteBitsMSB L).take p).length = p := by
            simp [byteBitsMSB]; omega
          simp only [hlen, List.getElem_map, List.getElem_range]
          have : 8 - p - 1 - (j - p) = 7 - j := by omega
          rw [this]
          simp
    constructor
    · rw [bwBits_concat, hbw, htake_eq, hkey, List.append_assoc]
    · intro hq0
      refine ⟨by simp, ?_⟩
      rw [List.getLastD_concat, hqval hq0]
      apply mod_two_pow_eq_zero
      intro t ht
      rw [Nat.testBit_or]
      have hLf : L.testBit t = false := testBit_eq_false_of_mod hL (by omega)
      have hPf : part.testBit t = false := testBit_eq_false_of_mod hlow (by omega)
      rw [hLf, hPf]
      rfl

/-- Full characterisation of the `writeBits` loop: the bit sequence
grows by exactly `chunkBits value bits space`, the invariant is
preserved, and the cursor advances by `bits` modulo 8. -/
lemma writeBitsF_spec :
    ∀ (fuel v n : Nat) (s : BitWriter), n ≤ fuel → BWInv s →
      bwBits (writeBitsF fuel v n s) = bwBits s ++ chunkBits v n (8 - s.bitPos.val)
      ∧ BWInv (writeBitsF fuel v n s)
      ∧ (writeBitsF fuel v n s).bitPos.val = (s.bitPos.val + n) % 8 := by
  intro fuel
  induction fuel with
  | zero =>
    intro v n s hn hInv
    have hn0 : n = 0 := Nat.le_zero.mp hn
    subst hn0
    refine ⟨by simp [writeBitsF, chunkBits_zero], hInv, ?_⟩
    simp [writeBitsF, Nat.mod_eq_of_lt s.bitPos.isLt]
  | succ fuel ih =>
    intro v n s hn hInv
    by_cases hn0 : n = 0
    · subst hn0
      refine ⟨by simp [writeBitsF, chunkBits_zero], by simpa [writeBitsF] using hInv, ?_⟩
      simp [writeBitsF, Nat.mod_eq_of_lt s.bitPos.isLt]
    · have hp8 : s.bitPos.val < 8 := s.bitPos.isLt
      by_cases hfit : n ≤ 8 - s.bitPos.val
      · have hw : writeBitsF (fuel + 1) v n s =
            ⟨orLastByte (if s.bitPos.val = 0 then s.buf ++ [0] else s.buf)
              ((v % 2 ^ n) * 2 ^ (8 - s.bitPos.val - n)),
              if h2 : s.bitPos.val + n = 8 then 0
              else ⟨s.bitPos.val + n, by omega⟩⟩ := by
          rw [writeBitsF]
          simp only [hn0, if_false, hfit, dif_pos]
        set part := (v % 2 ^ n) * 2 ^ (8 - s.bitPos.val - n) with hpart_def
        set q : Fin 8 := (if h2 : s.bitPos.val + n = 8 then (0 : Fin 8)
          else ⟨s.bitPos.val + n, by omega⟩) with hq_def
        have hq : q.val = (s.bitPos.val + n) % 8 := by
          rw [hq_def]
          by_cases h2 : s.bitPos.val + n = 8
          · simp [h2]
          · simp only [dif_neg h2]
            exact (Nat.mod_eq_of_lt (by omega)).symm
        have hstep := bwBits_orLast_step s hInv part n (by omega) hfit
          (by
            have h1 : v % 2 ^ n < 2 ^ n := Nat.mod_lt _ (Nat.pos_pow_of_pos n (by omega))
            calc part < 2 ^ n * 2 ^ (8 - s.bitPos.val - n) :=
                  Nat.mul_lt_mul_of_lt_of_le h1 (le_refl _) (Nat.pos_pow_of_pos _ (by omega))
            _ = 2 ^ (8 - s.bitPos.val) := by
                  rw [← pow_add]
                  congr 1
                  omega)
          (Nat.mul_mod_left _ _)
          q hq
        have hmap : (List.range n).map (fun i => part.testBit (8 - s.bitPos.val - 1 - i)) =
            msbBits n v := by
          unfold msbBits
          apply List.map_congr_left
          intro i hi
          rw [List.mem_range] at hi
          rw [hpart_def, ← Nat.shiftLeft_eq, Nat.testBit_shiftLeft,
            Nat.testBit_mod_two_pow]
          have h1 : 8 - s.bitPos.val - n ≤ 8 - s.bitPos.val - 1 - i := by omega
          have h2 : 8 - s.bitPos.val - 1 - i - (8 - s.bitPos.val - n) = n - 1 - i := by omega
          have h3 : n - 1 - i < n := by omega
          simp [h1, h2, h3]
        refine ⟨?_, by rw [hw]; exact hstep.2, by rw [hw, hq]⟩
        rw [hw, hstep.1, hmap, chunkBits_fit hfit]
      · have hsp1 : 1 ≤ 8 - s.bitPos.val := by omega
        have hw : writeBitsF (fuel + 1) v n s =
            writeBitsF fuel (v / 2 ^ (8 - s.bitPos.val)) (n - (8 - s.bitPos.val))
              ⟨orLastByte (if s.bitPos.val = 0 then s.buf ++ [0] else s.buf)
                (v % 2 ^ (8 - s.bitPos.val)), 0⟩ := by
          rw [writeBitsF]
          simp only [hn0, if_false, hfit, dif_neg, not_false_iff]
        set part := v % 2 ^ (8 - s.bitPos.val) with hpart_def
        have hstep := bwBits_orLast_step s hInv part (8 - s.bitPos.val) hsp1 (le_refl _)
          (Nat.mod_lt _ (Nat.pos_pow_of_pos _ (by omega)))
          (by
            have h0 : 8 - s.bitPos.val - (8 - s.bitPos.val) = 0 := by omega
            rw [h0, pow_zero, Nat.mod_one])
          (0 : Fin 8)
          (by simp)
        have hmap : (List.range (8 - s.bitPos.val)).map
            (fun i => part.testBit (8 - s.bitPos.val - 1 - i)) =
            msbBits (8 - s.bitPos.val) v := by
          unfold msbBits
          apply List.map_congr_left
          intro i hi
          rw [List.mem_range] at hi
          rw [hpart_def, Nat.testBit_mod_two_pow]
          have h1 : 8 - s.bitPos.val - 1 - i < 8 - s.bitPos.val := by omega
          simp [h1]
        obtain ⟨ihbits, ihinv, ihpos⟩ := ih (v / 2 ^ (8 - s.bitPos.val))
          (n - (8 - s.bitPos.val))
          ⟨orLastByte (if s.bitPos.val = 0 then s.buf ++ [0] else s.buf) part, 0⟩
          (by omega) hstep.2
        refine ⟨?_, by rw [hw]; exact ihinv, ?_⟩
        · rw [hw, ihbits]
          simp only [Fin.val_zero]
          rw [hstep.1, hmap, chunkBits_spill hfit hsp1, List.append_assoc]
        · rw [hw, ihpos]
          simp only [Fin.val_zero]
          omega

/-- `writeBits` characterisation at the exact fuel used by the source
loop. -/
lemma writeBits_spec (v n : Nat) (s : BitWriter) (hInv : BWInv s) :
    bwBits (writeBits v n s) = bwBits s ++ chunkBits v n (8 - s.bitPos.val)
    ∧ BWInv (writeBits v n s)
    ∧ (writeBits v n s).bitPos.val = (s.bitPos.val + n) % 8 :=
  writeBitsF_spec n v n s (le_refl n) hInv

lemma drop_byteBitsMSB_eq_replicate {L p : Nat} (hL : L % 2 ^ (8 - p) = 0)
    (hp : p < 8) : (byteBitsMSB L).drop p = List.replicate (8 - p) false := by
  apply List.ext_getElem
  · simp [byteBitsMSB]
  · intro j h1 h2
    rw [List.getElem_drop]
    simp only [byteBitsMSB, List.getElem_map, List.getElem_range,
      List.getElem_replicate]
    apply testBit_eq_false_of_mod hL
    simp [byteBitsMSB] at h1
    omega

lemma byteBitsMSB_zero : byteBitsMSB 0 = List.replicate 8 false := by decide

/-- C5 (amended): for every value, every bit count n in [1,64] and
every valid starting cursor state, writeBits(v, n) appends the low n
bits of v into the remaining free bits of the current byte, spilling
into newly appended zero bytes as needed — but in little-endian chunk
order: a field that spans a byte boundary places its LOW-order bits in
the earlier byte (each chunk itself sitting most-significant-bit-first
in its free positions), not its high-order bits as the claim states. -/
theorem dwg_writeBits_chunk_append (v n : Nat) (s : BitWriter)
    (hInv : BWInv s) (_hn1 : 1 ≤ n) (_hn64 : n ≤ 64) :
    bwBits (writeBits v n s) = bwBits s ++ chunkBits v n (8 - s.bitPos.val)
    ∧ BWInv (writeBits v n s)
    ∧ (writeBits v n s).bitPos.val = (s.bitPos.val + n) % 8 :=
  writeBits_spec v n s hInv

theorem dwg_writeBits_chunk_append_witness :
    bwBits (writeBits 5 3 ⟨[], 0⟩) = bwBits ⟨[], 0⟩ ++ chunkBits 5 3 8
    ∧ BWInv (writeBits 5 3 ⟨[], 0⟩)
    ∧ (writeBits 5 3 (⟨[], 0⟩ : BitWriter)).bitPos.val = ((0 : Nat) + 3) % 8 := by
  have h := dwg_writeBits_chunk_append 5 3 ⟨[], 0⟩ (by decide) (by decide) (by decide)
  simpa using h

/-- C5 counterexample: writing the 2-bit value 0b01 and then the 8-bit
value 0xAB does NOT append the 8 bits of 0xAB contiguously
most-significant-bit-first (the low 6 bits of 0xAB land in the first
byte and the high 2 bits in the second), refuting the claim that when
the n bits span a byte boundary the higher-order bits occupy the
earlier byte. -/
theorem dwg_writeBits_msb_span_counterexample :
    bwBits (writeBits 171 8 (writeBits 1 2 ⟨[], 0⟩)) ≠
      bwBits (writeBits 1 2 ⟨[], 0⟩) ++ msbBits 8 171 := by decide

/-- C6 (amended): flushByteAlign resets the bit cursor to 0 and is the
identity when the cursor is already 0; but when the cursor is nonzero
it does NOT leave the buffer length unchanged: it appends one extra
zero byte (the remaining bits of the partial byte were already zero),
so the byte length grows by one and the bit sequence gains the
partial-byte padding plus eight further zero bits. -/
theorem dwg_flushByteAlign_effect (s : BitWriter) (hInv : BWInv s) :
    (flushByteAlign s).bitPos.val = 0
    ∧ (s.bitPos.val = 0 → flushByteAlign s = s)
    ∧ (s.bitPos.val ≠ 0 →
        (flushByteAlign s).buf.length = s.buf.length + 1
        ∧ bwBits (flushByteAlign s) =
            bwBits s ++ List.replicate (16 - s.bitPos.val) false) := by
  by_cases hp : s.bitPos.val = 0
  · refine ⟨by simp [flushByteAlign, hp], fun _ => by simp [flushByteAlign, hp],
      fun h => absurd hp h⟩
  · obtain ⟨hbne, hL⟩ := hInv hp
    obtain ⟨bs, L, hbl⟩ : ∃ bs L, s.buf = bs ++ [L] :=
      ⟨s.buf.dropLast, s.buf.getLast hbne, (List.dropLast_append_getLast hbne).symm⟩
    have hLD : s.buf.getLastD 0 = L := by rw [hbl, List.getLastD_concat]
    rw [hLD] at hL
    have hfl : flushByteAlign s = ⟨s.buf ++ [0], 0⟩ := by
      simp [flushByteAlign, hp]
    refine ⟨by simp [hfl], fun h => absurd h hp, fun _ => ⟨by simp [hfl], ?_⟩⟩
    have hs' : s = ⟨bs ++ [L], s.bitPos⟩ := by cases s; simp_all
    rw [hfl, hs']
    show bwBits ⟨(bs ++ [L]) ++ [0], (0 : Fin 8)⟩ =
      bwBits ⟨bs ++ [L], s.bitPos⟩ ++ List.replicate (16 - s.bitPos.val) false
    rw [bwBits_concat (bs ++ [L]) 0, bwBits_concat bs L]
    have hpne : (if (s.bitPos : Nat) = 0 then 8 else (s.bitPos : Nat)) = s.bitPos.val := by
      simp [hp]
    rw [hpne]
    simp only [Fin.val_zero, if_true, eq_self_iff_true]
    rw [List.take_of_length_le (le_of_eq (byteBitsMSB_length 0)), byteBitsMSB_zero]
    rw [List.flatMap_append]
    simp only [List.flatMap_cons, List.flatMap_nil, List.append_nil]
    have hsplit : byteBitsMSB L =
        (byteBitsMSB L).take s.bitPos.val ++ List.replicate (8 - s.bitPos.val) false := by
      conv_lhs => rw [← List.take_append_drop s.bitPos.val (byteBitsMSB L)]
      rw [drop_byteBitsMSB_eq_replicate hL s.bitPos.isLt]
    conv_lhs => rw [hsplit]
    have hrep : List.replicate (8 - s.bitPos.val) false ++ List.replicate 8 false =
        List.replicate (16 - s.bitPos.val) false := by
      rw [← List.replicate_add]
      congr 1
      have := s.bitPos.isLt
      omega
    simp only [List.append_assoc]
    rw [hrep]

theorem dwg_flushByteAlign_effect_witness :
    (flushByteAlign ⟨[], 0⟩).bitPos.val = 0
    ∧ ((0 : Fin 8).val = 0 → flushByteAlign ⟨[], 0⟩ = ⟨[], 0⟩)
    ∧ ((0 : Fin 8).val ≠ 0 →
        (flushByteAlign ⟨[], 0⟩).buf.length = ([] : List Nat).length + 1
        ∧ bwBits (flushByteAlign ⟨[], 0⟩) =
            bwBits ⟨[], 0⟩ ++ List.replicate (16 - (0 : Fin 8).val) false) :=
  dwg_flushByteAlign_effect ⟨[], 0⟩ (by decide)

/-- C7: writeBitShort emits exactly one of four cases selected by a
2-bit selector: the sentinel 0b10 for v = 0, the sentinel 0b11 for
v = 256, selector 0b01 plus one raw byte when 0 ≤ v < 256, and
otherwise selector 0b00 plus a 16-bit little-endian field (low byte
first; for negative v these are the low 16 bits of the two's-complement
representation). -/
theorem dwg_writeBitShort_four_cases (val : Int) (s : BitWriter) (hInv : BWInv s) :
    bwBits (writeBitShort val s) = bwBits s ++
      (if val = 0 then chunkBits 2 2 (8 - s.bitPos.val)
       else if val = 256 then chunkBits 3 2 (8 - s.bitPos.val)
       else if 0 ≤ val ∧ val < 256 then
         chunkBits 1 2 (8 - s.bitPos.val) ++
           chunkBits val.toNat 8 (8 - (s.bitPos.val + 2) % 8)
       else
         chunkBits 0 2 (8 - s.bitPos.val) ++
           chunkBits (val.emod 256).toNat 8 (8 - (s.bitPos.val + 2) % 8) ++
           chunkBits ((val.fdiv 256).emod 256).toNat 8 (8 - (s.bitPos.val + 2) % 8)) := by
  unfold writeBitShort
  split_ifs with h0 h256 hr
  · exact (writeBits_spec 2 2 s hInv).1
  · exact (writeBits_spec 3 2 s hInv).1
  · obtain ⟨hb1, hi1, hp1⟩ := writeBits_spec 1 2 s hInv
    obtain ⟨hb2, _, _⟩ := writeBits_spec val.toNat 8 (writeBits 1 2 s) hi1
    rw [hb2, hb1, hp1, List.append_assoc]
  · obtain ⟨hb0, hi0, hp0⟩ := writeBits_spec 0 2 s hInv
    obtain ⟨hb2, hi2, hp2⟩ :=
      writeBits_spec (val.emod 256).toNat 8 (writeBits 0 2 s) hi0
    obtain ⟨hb3, _, _⟩ := writeBits_spec ((val.fdiv 256).emod 256).toNat 8
      (writeBits (val.emod 256).toNat 8 (writeBits 0 2 s)) hi2
    rw [hb3, hb2, hb0, hp2, hp0]
    have hmod : ((s.bitPos.val + 2) % 8 + 8) % 8 = (s.bitPos.val + 2) % 8 := by
      omega
    rw [hmod]
    simp [List.append_assoc]

theorem dwg_writeBitShort_four_cases_witness :
    bwBits (writeBitShort 7 ⟨[], 0⟩) = bwBits ⟨[], 0⟩ ++
      (if (7 : Int) = 0 then chunkBits 2 2 (8 - (0 : Fin 8).val)
       else if (7 : Int) = 256 then chunkBits 3 2 (8 - (0 : Fin 8).val)
       else if 0 ≤ (7 : Int) ∧ (7 : Int) < 256 then
         chunkBits 1 2 (8 - (0 : Fin 8).val) ++
           chunkBits (7 : Int).toNat 8 (8 - ((0 : Fin 8).val + 2) % 8)
       else
         chunkBits 0 2 (8 - (0 : Fin 8).val) ++
           chunkBits ((7 : Int).emod 256).toNat 8 (8 - ((0 : Fin 8).val + 2) % 8) ++
           chunkBits (((7 : Int).fdiv 256).emod 256).toNat 8
             (8 - ((0 : Fin 8).val + 2) % 8)) :=
  dwg_writeBitShort_four_cases 7 ⟨[], 0⟩ (by decide)

/-- C6 counterexample: after writing two bits the buffer holds one
byte; flushByteAlign then yields a two-byte buffer, refuting the claim
that byte_align leaves the buffer byte length unchanged (the length is
no longer the ceiling of the bits written divided by 8). -/
theorem dwg_flushByteAlign_length_counterexample :
    (flushByteAlign (writeBits 1 2 ⟨[], 0⟩)).buf.length = 2
    ∧ (writeBits 1 2 (⟨[], 0⟩ : BitWriter)).buf.length = 1 := by decide

lemma le32_length (n : Nat) : (le32 n).length = 4 := rfl

lemma dirEntry_length (a b c d e : Nat) : (dirEntry a b c d e).length = 14 := by
  simp [dirEntry, le32]

lemma xorKey_length : xorKey.length = 108 := by decide

lemma headerDir_length (a b c : Nat) : (headerDir a b c).length = 108 := by
  simp [headerDir, List.length_zipWith, dirEntry_length, le32_length, xorKey_length]

lemma fileHeader_length : fileHeader.length = 128 := by decide

lemma freeSecOf_length (size : Int) (a b : Nat) :
    (freeSecOf size a b).length =
      32 + (if ((fixedLen + a + b + 16 + 16 : Nat) : Int) < size
        then (size - ((fixedLen + a + b + 16 + 16 : Nat) : Int)).toNat else 0) := by
  simp only [freeSecOf, List.length_append, List.length_replicate]
  split_ifs <;> simp [startSentinel, endSentinel] <;> omega

lemma dwgRun_freeSec (cs : Nat → EntityChoice) (size : Int) :
    (dwgRun cs size).freeSec =
      freeSecOf size (dwgRun cs size).objectsSec.length
        (dwgRun cs size).handlesSec.length := rfl

/-- Total length of the emitted DWG bytes: the free-space section pads
exactly to the target when the other sections fit below it, and the
file is the bare section sum otherwise. -/
lemma dwgFile_length (cs : Nat → EntityChoice) (size : Int) :
    (dwgFile cs size).length = max size.toNat (dwgPrePadLen cs size) := by
  have hps : previewSec.length = 1024 := by decide
  have hss : summarySec.length = 128 := by decide
  have hhs : headerSec.length = 32 := by decide
  have hcs : classesSec.length = 32 := by decide
  have hfree := dwgRun_freeSec cs size
  have hfl : (dwgFile cs size).length =
      fileHeader.length + 108 + previewSec.length + summarySec.length +
        headerSec.length + classesSec.length +
        (dwgRun cs size).objectsSec.length + (dwgRun cs size).handlesSec.length +
        (dwgRun cs size).freeSec.length := by
    simp only [dwgFile, List.length_append, headerDir_length]
  rw [hfl, fileHeader_length, hps, hss, hhs, hcs, hfree, freeSecOf_length]
  have hpre : dwgPrePadLen cs size =
      fixedLen + (dwgRun cs size).objectsSec.length +
        (dwgRun cs size).handlesSec.length + 16 + 16 := rfl
  have hfx : fixedLen = 1452 := by decide
  rw [hpre, hfx]
  split_ifs with hlt
  · omega
  · omega

lemma entityLoopF_inv (cs : Nat → EntityChoice) (size : Int) :
    ∀ (fuel : Nat) (st : LoopState), LoopInv st →
      LoopInv (entityLoopF cs size fuel st) := by
  intro fuel
  induction fuel with
  | zero => intro st h; exact h
  | succ fuel ih =>
    intro st h
    rw [entityLoopF]
    by_cases h1 : size ≤ ((fixedLen + st.objectsSec.length + 16 + 16 + 16 : Nat) : Int)
    · rw [if_pos h1]; exact h
    · rw [if_neg h1]
      show LoopInv (if ((fixedLen + (st.objectsSec.length +
          (entityRec (cs st.entityCount)).length + 16 + 32) : Nat) : Int) > size
        then st
        else entityLoopF cs size fuel
          { objectsSec := st.objectsSec ++ entityRec (cs st.entityCount),
            handleIndex := st.handleIndex ++
              [⟨st.nextEntityHandle, st.objectsSec.length⟩],
            nextEntityHandle := st.nextEntityHandle + 1,
            entityCount := st.entityCount + 1 })
      by_cases h2 : ((fixedLen + (st.objectsSec.length +
          (entityRec (cs st.entityCount)).length + 16 + 32) : Nat) : Int) > size
      · rw [if_pos h2]; exact h
      · rw [if_neg h2]
        apply ih
        obtain ⟨hnext, ⟨es, hsplit, hmap⟩, hlen⟩ := h
        refine ⟨by simp [hnext]; omega,
          ⟨es ++ [⟨st.nextEntityHandle, st.objectsSec.length⟩], ?_, ?_⟩, ?_⟩
        · simp [hsplit, List.append_assoc]
        · simp only [List.map_append, hmap, List.map_cons, List.map_nil, hnext]
          rw [List.range_succ]
          simp
        · simp only [List.length_append]
          omega

lemma dwgRun_inv (cs : Nat → EntityChoice) (size : Int) :
    LoopInv (entityLoopF cs size (size.toNat + 1)
      { objectsSec := dwgInit.1, handleIndex := dwgInit.2,
        nextEntityHandle := 0x100, entityCount := 0 }) := by
  apply entityLoopF_inv
  refine ⟨rfl, ⟨[], by simp, by simp⟩, by decide⟩

lemma dwgRun_handleIndex_eq (cs : Nat → EntityChoice) (size : Int) :
    (dwgRun cs size).handleIndex =
      (entityLoopF cs size (size.toNat + 1)
        { objectsSec := dwgInit.1, handleIndex := dwgInit.2,
          nextEntityHandle := 0x100, entityCount := 0 }).handleIndex := rfl

lemma dwgRun_entityCount_eq (cs : Nat → EntityChoice) (size : Int) :
    (dwgRun cs size).entityCount =
      (entityLoopF cs size (size.toNat + 1)
        { objectsSec := dwgInit.1, handleIndex := dwgInit.2,
          nextEntityHandle := 0x100, entityCount := 0 }).entityCount := rfl

lemma dwgInit_handles : dwgInit.2.map ObjEntry.handle = [1, 2, 3, 4, 5, 6] := by decide

/-- The handle index lists handles 1..6 (table objects) followed by the
entity handles 0x100, 0x100+1, ... in order of appending. -/
lemma dwgRun_handles_map (cs : Nat → EntityChoice) (size : Int) :
    (dwgRun cs size).handleIndex.map ObjEntry.handle =
      [1, 2, 3, 4, 5, 6] ++
        (List.range (dwgRun cs size).entityCount).map (fun i => 256 + i) := by
  obtain ⟨-, ⟨es, hsplit, hmap⟩, -⟩ := dwgRun_inv cs size
  rw [dwgRun_handleIndex_eq, hsplit, List.map_append, dwgInit_handles, hmap,
    dwgRun_entityCount_eq]

lemma dwgRun_handleIndex_pairwise (cs : Nat → EntityChoice) (size : Int) :
    List.Pairwise (fun a b : ObjEntry => a.handle < b.handle)
      (dwgRun cs size).handleIndex := by
  have hmap := dwgRun_handles_map cs size
  have hpw : List.Pairwise (· < ·) ((dwgRun cs size).handleIndex.map ObjEntry.handle) := by
    rw [hmap]
    rw [List.pairwise_append]
    refine ⟨by decide, ?_, ?_⟩
    · rw [List.pairwise_map]
      exact (List.pairwise_lt_range _).imp (by omega)
    · intro a ha b hb
      rw [List.mem_map] at hb
      obtain ⟨i, -, rfl⟩ := hb
      fin_cases ha <;> omega
  rwa [List.pairwise_map] at hpw

lemma dwgRun_sortedIndex_eq (cs : Nat → EntityChoice) (size : Int) :
    sortedIndex (dwgRun cs size).handleIndex = (dwgRun cs size).handleIndex := by
  apply List.Sorted.insertionSort_eq
  exact (dwgRun_handleIndex_pairwise cs size).imp le_of_lt

lemma dwgRun_handleIndex_length (cs : Nat → EntityChoice) (size : Int) :
    (dwgRun cs size).handleIndex.length = 6 + (dwgRun cs size).entityCount := by
  have h := congrArg List.length (dwgRun_handles_map cs size)
  simp at h
  omega

/-- C4: in every generated DWG file the serialized handles section is
the sentinel-bracketed concatenation of exactly one entry per object
appended to the objects section (six table objects plus one per
entity), the index is already in strictly ascending handle order (so
the sort leaves it unchanged), and each serialized entry carries the
4-byte little-endian offset recorded for that object at the moment it
was appended. -/
theorem dwg_handles_section_sorted (cs : Nat → EntityChoice) (size : Int) :
    (dwgRun cs size).handlesSec =
      startSentinel ++ (dwgRun cs size).handleIndex.flatMap handleEntryBytes ++
        endSentinel
    ∧ List.Pairwise (fun a b : ObjEntry => a.handle < b.handle)
        (dwgRun cs size).handleIndex
    ∧ (dwgRun cs size).handleIndex.length = 6 + (dwgRun cs size).entityCount
    ∧ ∀ e ∈ (dwgRun cs size).handleIndex,
        handleEntryBytes e =
          (hBytesLoopF 8 e.handle).length :: (hBytesLoopF 8 e.handle ++ le32 e.offset) := by
  refine ⟨?_, dwgRun_handleIndex_pairwise cs size,
    dwgRun_handleIndex_length cs size, ?_⟩
  · have h : (dwgRun cs size).handlesSec = handlesSecOf (dwgRun cs size).handleIndex := rfl
    rw [h, handlesSecOf, dwgRun_sortedIndex_eq]
  · intro e _
    simp [handleEntryBytes]

/-- C3 (code bug): with target 1634 and an all-special circle entity
the loop appends exactly one entity; re-encoding the Model-Space
record with owned-object count 1 yields a 27-byte record, one byte
longer than the 26-byte original allocation at offset 25, and the
unverified copy overwrites the byte at offset 51 — the first byte (the
length-field low byte, value 5) of the following Layer Control record,
which becomes 0. -/
theorem dwg_model_space_patch_overruns :
    (entityLoopF csCircle 1634 1635
        { objectsSec := dwgInit.1, handleIndex := dwgInit.2,
          nextEntityHandle := 0x100, entityCount := 0 }).entityCount = 1
    ∧ (modelSpaceRec 0).length = 26
    ∧ (modelSpaceRec 1).length = 27
    ∧ (entityLoopF csCircle 1634 1635
        { objectsSec := dwgInit.1, handleIndex := dwgInit.2,
          nextEntityHandle := 0x100, entityCount := 0 }).handleIndex.find?
        (fun e => e.handle = modelSpaceBlockHdl) = some ⟨2, 25⟩
    ∧ (25 : Nat) + (modelSpaceRec 0).length = 51
    ∧ (entityLoopF csCircle 1634 1635
        { objectsSec := dwgInit.1, handleIndex := dwgInit.2,
          nextEntityHandle := 0x100, entityCount := 0 }).objectsSec[51]? = some 5
    ∧ (patchModelSpace
        (entityLoopF csCircle 1634 1635
          { objectsSec := dwgInit.1, handleIndex := dwgInit.2,
            nextEntityHandle := 0x100, entityCount := 0 }).objectsSec
        (entityLoopF csCircle 1634 1635
          { objectsSec := dwgInit.1, handleIndex := dwgInit.2,
            nextEntityHandle := 0x100, entityCount := 0 }).handleIndex
        1)[51]? = some 0 := by decide

lemma le_sum_of_forall_le (c : Nat) :
    ∀ (l : List Nat), (∀ x ∈ l, c ≤ x) → c * l.length ≤ l.sum := by
  intro l
  induction l with
  | nil => intro _; simp
  | cons a l ih =>
    intro h
    have ha : c ≤ a := h a (by simp)
    have hl : c * l.length ≤ l.sum := ih (fun x hx => h x (by simp [hx]))
    simp only [List.length_cons, List.sum_cons, Nat.mul_succ]
    omega

lemma handleEntryBytes_length_ge (e : ObjEntry) : 6 ≤ (handleEntryBytes e).length := by
  have h1 : 1 ≤ (hBytesLoopF 8 e.handle).length := by
    rw [hBytesLoopF]
    simp
  simp only [handleEntryBytes, le32, List.length_append, List.length_cons]
  simp
  omega

lemma dwgRun_handlesSec_length_ge (cs : Nat → EntityChoice) (size : Int) :
    68 ≤ (dwgRun cs size).handlesSec.length := by
  have h : (dwgRun cs size).handlesSec = handlesSecOf (dwgRun cs size).handleIndex := rfl
  rw [h, handlesSecOf]
  simp only [List.length_append]
  have hflat : ((sortedIndex (dwgRun cs size).handleIndex).flatMap handleEntryBytes).length =
      ((sortedIndex (dwgRun cs size).handleIndex).map
        (fun e => (handleEntryBytes e).length)).sum := by
    rw [List.flatMap_def, List.length_flatten, List.map_map]
    rfl
  have hsortlen : (sortedIndex (dwgRun cs size).handleIndex).length =
      (dwgRun cs size).handleIndex.length :=
    (List.perm_insertionSort _ _).length_eq
  have hsum : 6 * (sortedIndex (dwgRun cs size).handleIndex).length ≤
      ((sortedIndex (dwgRun cs size).handleIndex).map
        (fun e => (handleEntryBytes e).length)).sum := by
    have := le_sum_of_forall_le 6
      ((sortedIndex (dwgRun cs size).handleIndex).map
        (fun e => (handleEntryBytes e).length))
      (by
        intro x hx
        rw [List.mem_map] at hx
        obtain ⟨e, -, rfl⟩ := hx
        exact handleEntryBytes_length_ge e)
    simpa using this
  have hhl := dwgRun_handleIndex_length cs size
  have hss : startSentinel.length = 16 := by decide
  have hes : endSentinel.length = 16 := by decide
  omega

lemma listCopyAt_length_ge (dst src : List Nat) (pos : Nat) (hpos : pos ≤ dst.length) :
    dst.length ≤ (listCopyAt dst pos src).length := by
  simp only [listCopyAt, List.length_append, List.length_take, List.length_drop]
  omega

lemma dwgInit_find_modelSpace :
    dwgInit.2.find? (fun e => e.handle = modelSpaceBlockHdl) = some ⟨2, 25⟩ := by
  decide

lemma dwgRun_objectsSec_length_ge (cs : Nat → EntityChoice) (size : Int) :
    135 ≤ (dwgRun cs size).objectsSec.length := by
  obtain ⟨-, ⟨es, hsplit, -⟩, hlen⟩ := dwgRun_inv cs size
  have h : (dwgRun cs size).objectsSec =
      patchModelSpace
        (entityLoopF cs size (size.toNat + 1)
          { objectsSec := dwgInit.1, handleIndex := dwgInit.2,
            nextEntityHandle := 0x100, entityCount := 0 }).objectsSec
        (entityLoopF cs size (size.toNat + 1)
          { objectsSec := dwgInit.1, handleIndex := dwgInit.2,
            nextEntityHandle := 0x100, entityCount := 0 }).handleIndex
        (entityLoopF cs size (size.toNat + 1)
          { objectsSec := dwgInit.1, handleIndex := dwgInit.2,
            nextEntityHandle := 0x100, entityCount := 0 }).entityCount ++ endSentinel := rfl
  rw [h]
  simp only [List.length_append]
  have hes : endSentinel.length = 16 := by decide
  have hpatch : 119 ≤ (patchModelSpace
      (entityLoopF cs size (size.toNat + 1)
        { objectsSec := dwgInit.1, handleIndex := dwgInit.2,
          nextEntityHandle := 0x100, entityCount := 0 }).objectsSec
      (entityLoopF cs size (size.toNat + 1)
        { objectsSec := dwgInit.1, handleIndex := dwgInit.2,
          nextEntityHandle := 0x100, entityCount := 0 }).handleIndex
      (entityLoopF cs size (size.toNat + 1)
        { objectsSec := dwgInit.1, handleIndex := dwgInit.2,
          nextEntityHandle := 0x100, entityCount := 0 }).entityCount).length := by
    rw [patchModelSpace, hsplit, List.find?_append, dwgInit_find_modelSpace]
    simp only [Option.or_some]
    refine le_trans hlen (listCopyAt_length_ge _ _ _ (by omega))
  omega

end Dwg

namespace Wav

lemma wavHeader_length (size : Int) : (wavHeader size).length = 44 := by
  simp [wavHeader, le16, Dwg.le32]

end Wav


/-- C1 (amended): the WAV generator is exact — for every target of at
least its 44-byte minimum the bytes written are exactly the target (a
44-byte header plus target-44 data bytes).  The DWG generator is NOT
always exact: its file length is max(target, pre-padding length) — the
free-space section pads to exactly the target only when the assembled
sections (sized by the greedy loop, whose 48-byte closing-overhead
estimate undercounts the real handles and free-space sections) do not
already exceed the target. -/
theorem wav_exact_dwg_padded_to_max :
    (∀ (rnd : Nat → Nat) (size : Int), 44 ≤ size →
      (Wav.wavGenerate rnd size).map List.length = .ok size.toNat)
    ∧ ∀ (cs : Nat → Dwg.EntityChoice) (size : Int),
        (Dwg.dwgFile cs size).length = max size.toNat (Dwg.dwgPrePadLen cs size) := by
  constructor
  · intro rnd size h
    rw [Wav.wavGenerate, if_neg (by omega)]
    simp only [Except.map, List.length_append, List.length_map, List.length_range,
      Wav.wavHeader_length]
    congr 1
    omega
  · exact Dwg.dwgFile_length

theorem wav_exact_dwg_padded_to_max_witness :
    (Wav.wavGenerate (fun _ => 7) 100).map List.length = .ok (100 : Int).toNat :=
  wav_exact_dwg_padded_to_max.1 (fun _ => 7) 100 (by norm_num)

/-- C1 counterexample: the DWG minimum structural size is 1687 bytes
(the zero-entity file), 1700 ≥ 1687, yet with a reachable random
stream (circles at the origin with radius 1) the file generated for
target 1700 is 1797 bytes — Generate does not produce a file of length
exactly the target. -/
theorem dwg_exact_size_counterexample :
    (Dwg.dwgFile Dwg.csCircle 0).length = 1687
    ∧ (1687 : Nat) ≤ 1700
    ∧ (Dwg.dwgFile Dwg.csCircle 1700).length = 1797 := by
  refine ⟨?_, by norm_num, ?_⟩
  · rw [Dwg.dwgFile_length]
    have h : Dwg.dwgPrePadLen Dwg.csCircle 0 = 1687 := by decide
    rw [h]
    rfl
  · rw [Dwg.dwgFile_length]
    have h : Dwg.dwgPrePadLen Dwg.csCircle 1700 = 1797 := by decide
    rw [h]
    rfl

/-- C2 (amended): the WAV generator fails for every target below 44
with an error reporting the 44-byte minimum, before the output file is
created.  The DWG generator performs no minimum-size check at all: it
succeeds for every target (its only error paths are I/O), always
emitting at least its 1687-byte structural minimum. -/
theorem size_too_small_check :
    (∀ (rnd : Nat → Nat) (size : Int), size < 44 →
      Wav.wavGenerate rnd size = .error Wav.wavMinErr)
    ∧ ∀ (cs : Nat → Dwg.EntityChoice) (size : Int),
        (Dwg.dwgGenerate cs size).isOk = true
        ∧ 1687 ≤ (Dwg.dwgFile cs size).length := by
  constructor
  · intro rnd size h
    rw [Wav.wavGenerate, if_pos h]
  · intro cs size
    refine ⟨rfl, ?_⟩
    rw [Dwg.dwgFile_length]
    have h1 := Dwg.dwgRun_objectsSec_length_ge cs size
    have h2 := Dwg.dwgRun_handlesSec_length_ge cs size
    have h3 : Dwg.dwgPrePadLen cs size =
        Dwg.fixedLen + (Dwg.dwgRun cs size).objectsSec.length +
          (Dwg.dwgRun cs size).handlesSec.length + 16 + 16 := rfl
    have h4 : Dwg.fixedLen = 1452 := by decide
    omega

theorem size_too_small_check_witness :
    Wav.wavGenerate (fun _ => 7) 10 = .error Wav.wavMinErr :=
  size_too_small_check.1 (fun _ => 7) 10 (by norm_num)

/-- C2 counterexample: at target 0 — below any format minimum — the
DWG generator returns success and emits a 1687-byte file, instead of
failing with a size-too-small error and leaving no output file. -/
theorem dwg_no_minimum_check_counterexample :
    (Dwg.dwgGenerate Dwg.csCircle 0).isOk = true
    ∧ (Dwg.dwgFile Dwg.csCircle 0).length = 1687 := by
  refine ⟨rfl, ?_⟩
  rw [Dwg.dwgFile_length]
  have h : Dwg.dwgPrePadLen Dwg.csCircle 0 = 1687 := by decide
  rw [h]
  rfl

namespace Utils

lemma digit_not_space : ∀ c ∈ decDigits, goIsSpace c = false := by decide

lemma digit_isDigit : ∀ c ∈ decDigits, isDigitCh c = true := by decide

lemma digit_toUpper : ∀ c ∈ decDigits, goToUpper c = c := by decide

lemma dropWhile_eq_self_of_head {p : Char → Bool} {c : Char} {l : List Char}
    (h : p c = false) : (c :: l).dropWhile p = c :: l := by
  simp [List.dropWhile_cons, h]

lemma takeWhile_eq_self_of_all {p : Char → Bool} :
    ∀ {l : List Char}, (∀ c ∈ l, p c = true) → l.takeWhile p = l := by
  intro l
  induction l with
  | nil => intro _; rfl
  | cons a l ih =>
    intro h
    rw [List.takeWhile_cons, h a (by simp)]
    simp only [if_true]
    rw [ih (fun c hc => h c (by simp [hc]))]

lemma digitsVal_nonneg {ds : List Char} (hd : ∀ c ∈ ds, c ∈ decDigits) :
    0 ≤ digitsVal ds := by
  suffices h : ∀ (a : Int), 0 ≤ a →
      0 ≤ ds.foldl (fun a c => a * 10 + ((c.toNat - 48 : Nat) : Int)) a by
    exact h 0 le_rfl
  induction ds with
  | nil => intro a ha; simpa using ha
  | cons c ds ih =>
    intro a ha
    simp only [List.foldl_cons]
    apply ih
    · intro x hx
      exact hd x (by simp [hx])
    · have : (0 : Int) ≤ ((c.toNat - 48 : Nat) : Int) := Int.natCast_nonneg _
      nlinarith

lemma map_eq_self_of_forall {f : Char → Char} :
    ∀ {l : List Char}, (∀ c ∈ l, f c = c) → l.map f = l := by
  intro l
  induction l with
  | nil => intro _; rfl
  | cons a l ih =>
    intro h
    rw [List.map_cons, h a (by simp), ih (fun c hc => h c (by simp [hc]))]

lemma trimSpace_minus_digits {ds : List Char}
    (hd : ∀ c ∈ ds, c ∈ decDigits) :
    trimSpace ('-' :: ds) = '-' :: ds := by
  unfold trimSpace
  rw [dropWhile_eq_self_of_head (by decide)]
  obtain ⟨c, t, hrev⟩ : ∃ c t, ('-' :: ds).reverse = c :: t := by
    cases h : ('-' :: ds).reverse with
    | nil => exact absurd (congrArg List.length h) (by simp)
    | cons c t => exact ⟨c, t, rfl⟩
  have hcmem : c ∈ '-' :: ds := by
    have : c ∈ ('-' :: ds).reverse := by rw [hrev]; simp
    rwa [List.mem_reverse] at this
  have hcns : goIsSpace c = false := by
    rcases List.mem_cons.mp hcmem with h1 | h1
    · subst h1; decide
    · exact digit_not_space c (hd c h1)
  rw [hrev, dropWhile_eq_self_of_head hcns, ← hrev, List.reverse_reverse]

/-- C10 (amended): ParseSize accepts negative size strings whose value
fits in int64: for every input consisting of a minus sign followed by
digits (with magnitude at most 2^63, the int64 lower bound) and no
suffix, it returns the negative value with a nil error, and CreateFile
passes that negative byte count straight through to the format
generator selected by the extension.  Inputs whose magnitude overflows
int64 instead fail in the numeric parse (see the counterexample). -/
theorem parse_size_negative_passthrough (ds : List Char)
    (hne : ds ≠ []) (hd : ∀ c ∈ ds, c ∈ Utils.decDigits)
    (hrange : Utils.digitsVal ds ≤ 2 ^ 63) :
    Utils.ParseSize ('-' :: ds) = .ok (-(Utils.digitsVal ds))
    ∧ ∀ factory, Utils.CreateFile factory ['w', 'a', 'v'] ('-' :: ds) =
        (match factory Utils.FileType.wav with
         | none => .error "no generator for type"
         | some gen => gen (-(Utils.digitsVal ds))) := by
  have hnn := Utils.digitsVal_nonneg hd
  have hne2 : ('-' :: ds : List Char) ≠ [] := by simp
  have htrim : Utils.trimSpace ('-' :: ds) = '-' :: ds :=
    Utils.trimSpace_minus_digits hd
  have hmapds : ds.map Utils.goToUpper = ds :=
    Utils.map_eq_self_of_forall (fun c hc => Utils.digit_toUpper c (hd c hc))
  have hupmin : Utils.goToUpper '-' = '-' := by decide
  have hupper : (Utils.trimSpace ('-' :: ds)).map Utils.goToUpper = '-' :: ds := by
    rw [htrim, List.map_cons, hupmin, hmapds]
  have hpred : (fun c => !(Utils.isDigitCh c)) '-' = true := by decide
  have hscan : Utils.scanNum ('-' :: ds) = ([], Utils.trimSpace ('-' :: ds)) := by
    unfold Utils.scanNum
    have hdig : (!Utils.isDigitCh '-') = true := by decide
    rw [List.findIdx?_cons, hdig]
    simp
  have hdw : ('-' :: ds).dropWhile Utils.goIsSpace = '-' :: ds :=
    Utils.dropWhile_eq_self_of_head (by decide)
  have hAllDig : ds.takeWhile Utils.isDigitCh = ds :=
    Utils.takeWhile_eq_self_of_all (fun c hc => Utils.digit_isDigit c (hd c hc))
  have hsscanf : Utils.sscanfInt ('-' :: ds) = .ok (-(Utils.digitsVal ds)) := by
    simp only [Utils.sscanfInt, hdw, hAllDig]
    rw [if_neg hne]
    simp only [if_true]
    rw [if_neg (by push_neg; constructor <;> omega)]
  have hmain : Utils.ParseSize ('-' :: ds) = .ok (-(Utils.digitsVal ds)) := by
    simp only [Utils.ParseSize, hupper, hscan, hsscanf]
    rw [if_neg hne2]
    simp [htrim, hsscanf]
  refine ⟨hmain, ?_⟩
  intro factory
  unfold Utils.CreateFile
  rw [hmain]
  have hext : Utils.mapExtensionToFileType ['w', 'a', 'v'] = .ok .wav := rfl
  rw [hext]

theorem parse_size_negative_passthrough_witness :
    Utils.ParseSize ('-' :: ['5']) = .ok (-(Utils.digitsVal ['5']))
    ∧ ∀ factory, Utils.CreateFile factory ['w', 'a', 'v'] ('-' :: ['5']) =
        (match factory Utils.FileType.wav with
         | none => .error "no generator for type"
         | some gen => gen (-(Utils.digitsVal ['5']))) :=
  parse_size_negative_passthrough ['5'] (by decide) (by decide) (by decide)

/-- C10 counterexample: the input "-9223372036854775809" (one below
the minimal int64) consists of a minus sign followed by digits and no
suffix, yet ParseSize rejects it with a numeric-range parse error
rather than returning the negative value with a nil error. -/
theorem parse_size_negative_overflow_counterexample :
    Utils.ParseSize "-9223372036854775809".toList =
      .error (.invalidNumber "value out of range") := by rfl

end Utils

namespace Xlsx

lemma xlsxSearch_spec (measure : Nat → Int) (padOH target : Int) :
    ∀ n : Nat,
      (∀ r, xlsxSearch measure padOH target n = some r →
        1 ≤ r.1 ∧ r.1 ≤ n ∧ r.2 = measure r.1 ∧ r.2 + padOH ≤ target
        ∧ ∀ c, r.1 < c → c ≤ n → target < measure c + padOH)
      ∧ (xlsxSearch measure padOH target n = none →
        ∀ c, 1 ≤ c → c ≤ n → target < measure c + padOH) := by
  intro n
  induction n with
  | zero =>
    constructor
    · intro r hr
      simp [xlsxSearch] at hr
    · intro _ c hc1 hc2
      omega
  | succ n ih =>
    constructor
    · intro r hr
      rw [xlsxSearch] at hr
      by_cases hfit : measure (n + 1) + padOH ≤ target
      · rw [if_pos hfit] at hr
        injection hr with hr
        subst hr
        refine ⟨by omega, le_refl _, rfl, hfit, ?_⟩
        intro c hc1 hc2
        omega
      · rw [if_neg hfit] at hr
        obtain ⟨h1, h2, h3, h4, h5⟩ := ih.1 r hr
        refine ⟨h1, by omega, h3, h4, ?_⟩
        intro c hc1 hc2
        rcases Nat.lt_or_ge c (n + 1) with h | h
        · exact h5 c hc1 (by omega)
        · have : c = n + 1 := by omega
          subst this
          omega
    · intro hr c hc1 hc2
      rw [xlsxSearch] at hr
      by_cases hfit : measure (n + 1) + padOH ≤ target
      · rw [if_pos hfit] at hr
        exact absurd hr (by simp)
      · rw [if_neg hfit] at hr
        rcases Nat.lt_or_ge c (n + 1) with h | h
        · exact ih.2 hr c hc1 (by omega)
        · have : c = n + 1 := by omega
          subst this
          omega

end Xlsx


/-- C8: for every target of at least the minimal XLSX size plus the
zip-pad overhead (and any serializer for which adding cells makes the
file strictly larger than the minimal skeleton), the planner succeeds;
the accepted serialized content never exceeds target minus padding
overhead; when a count of at least 1 is accepted it is the actual
measured size of the largest count in the searched range
[1, estCount] that fits; and when no count of at least 1 fits (or the
target is exactly minimal+padOH) the planner falls back to the minimal
zero-extra-cells file. -/
theorem xlsx_planner_never_overshoots (measure : Nat → Int)
    (minimal avgSize padOH target : Int)
    (hfit : minimal + padOH ≤ target)
    (hgrow : ∀ c : Nat, 1 ≤ c → minimal < measure c) :
    ∃ out : Xlsx.XlsxOut,
      Xlsx.xlsxGenerate measure minimal avgSize padOH target = .ok out
      ∧ out.contentSize + padOH ≤ target
      ∧ (1 ≤ out.count →
          out.count ≤ Xlsx.xlsxEstCount minimal avgSize padOH target
          ∧ out.contentSize = measure out.count
          ∧ ∀ c : Nat, out.count < c →
              c ≤ Xlsx.xlsxEstCount minimal avgSize padOH target →
              target < measure c + padOH)
      ∧ (out.count = 0 →
          out.contentSize = minimal
          ∧ ∀ c : Nat, 1 ≤ c →
              c ≤ Xlsx.xlsxEstCount minimal avgSize padOH target →
              target < measure c + padOH) := by
  unfold Xlsx.xlsxGenerate
  rw [if_neg (by omega)]
  by_cases heq : target = minimal + padOH
  · rw [if_pos heq]
    refine ⟨⟨0, minimal⟩, rfl, ?_, ?_, ?_⟩
    · show minimal + padOH ≤ target
      omega
    · intro h0
      have h0' : (1 : Nat) ≤ 0 := h0
      omega
    · intro _
      refine ⟨rfl, ?_⟩
      intro c hc1 _
      have := hgrow c hc1
      omega
  · rw [if_neg heq]
    cases hs : Xlsx.xlsxSearch measure padOH target
        (Xlsx.xlsxEstCount minimal avgSize padOH target) with
    | some r =>
      obtain ⟨h1, h2, h3, h4, h5⟩ :=
        (Xlsx.xlsxSearch_spec measure padOH target _).1 r hs
      refine ⟨⟨r.1, r.2⟩, rfl, ?_, ?_, ?_⟩
      · show r.2 + padOH ≤ target
        exact h4
      · intro _
        exact ⟨h2, h3, h5⟩
      · intro h0
        have h0' : r.1 = 0 := h0
        omega
    | none =>
      have h5 := (Xlsx.xlsxSearch_spec measure padOH target _).2 hs
      refine ⟨⟨0, minimal⟩, rfl, ?_, ?_, ?_⟩
      · show minimal + padOH ≤ target
        omega
      · intro h0
        have h0' : (1 : Nat) ≤ 0 := h0
        omega
      · intro _
        exact ⟨rfl, h5⟩

theorem xlsx_planner_never_overshoots_witness :
    ∃ out : Xlsx.XlsxOut,
      Xlsx.xlsxGenerate (fun c => 100 + 10 * (c : Int)) 100 200 50 500 = .ok out
      ∧ out.contentSize + 50 ≤ 500
      ∧ (1 ≤ out.count →
          out.count ≤ Xlsx.xlsxEstCount 100 200 50 500
          ∧ out.contentSize = (fun c : Nat => 100 + 10 * (c : Int)) out.count
          ∧ ∀ c : Nat, out.count < c → c ≤ Xlsx.xlsxEstCount 100 200 50 500 →
              500 < (fun c : Nat => 100 + 10 * (c : Int)) c + 50)
      ∧ (out.count = 0 →
          out.contentSize = 100
          ∧ ∀ c : Nat, 1 ≤ c → c ≤ Xlsx.xlsxEstCount 100 200 50 500 →
              500 < (fun c : Nat => 100 + 10 * (c : Int)) c + 50) :=
  xlsx_planner_never_overshoots (fun c => 100 + 10 * (c : Int)) 100 200 50 500
    (by norm_num)
    (by
      intro c hc
      show (100 : Int) < 100 + 10 * (c : Int)
      omega)


/-- C9 (amended): when the iterative size-refinement loop reaches its
iteration cap without stabilizing, generation does NOT report any
error: it logs a warning, performs the final generation with the last
character count, and returns success.  No ConvergenceFailure path
exists — Generate succeeds for every target at or above the measured
minimal size. -/
theorem pdf_cap_still_succeeds (trace : Nat → Int × Int) (stdAdj : Nat → Int)
    (initialBase target : Int) (h : initialBase ≤ target) :
    ∃ out : Pdf.PdfOut,
      Pdf.pdfGenerate trace stdAdj initialBase target = .ok out := by
  unfold Pdf.pdfGenerate
  rw [if_neg (by omega)]
  by_cases heq : target = initialBase
  · rw [if_pos heq]
    exact ⟨_, rfl⟩
  · rw [if_neg heq]
    exact ⟨_, rfl⟩

theorem pdf_cap_still_succeeds_witness :
    ∃ out : Pdf.PdfOut,
      Pdf.pdfGenerate (fun _ => (0, 0)) (fun _ => 0) 44 44 = .ok out :=
  pdf_cap_still_succeeds (fun _ => (0, 0)) (fun _ => 0) 44 44 (by norm_num)

/-- C9 counterexample: a reachable run (every iteration measures 9910
or 9920 bytes against target 10000, so the difference never enters the
5-byte tolerance, never oscillates in sign and never changes by less
than 10) drives the loop through all 20 iterations; the cap is hit
(hitCap = true) and Generate still returns success instead of a
ConvergenceFailure error. -/
theorem pdf_convergence_failure_counterexample :
    Pdf.pdfGenerate (fun i => (9910 + 10 * ((i % 2 : Nat) : Int), 9910 + 10 * ((i % 2 : Nat) : Int)))
      (fun _ => 0) 500 10000 = .ok ⟨11200, true⟩ := by rfl

end GenFile
